import Mathlib

/-!
Verification of the core of `src/gitkeep.ts` (GitKeep Manager): the
gitignore-style pattern compiler and matcher, the per-directory rule
accumulator, and the post-order directory walker that reconciles `.gitkeep`
marker files.

The TypeScript source is shallowly embedded: strings are Lean `String`s
(manipulated through their character lists so that every definition is
executable by the kernel), the JavaScript regular expressions built by
`patternToRegExp` are represented by an explicit regular-expression AST
with a derivative-based matcher, the filesystem is an explicit tree value,
and the mutation of `fs` performed by the walker is modelled by returning
the updated tree.  Fallible directory listings are modelled by a flag on
each directory node.
-/

namespace GitKeep

/-! ## Regular expressions

`patternToRegExp` in the source builds a JavaScript `RegExp` from a
gitignore pattern and tests paths with `regex.test(path)`.  Every regex the
source builds starts with `^` or `(?:^|/)` and ends with `$`, so `test`'s
substring search is equivalent to a whole-string match once `(?:^|/)` is
normalised to `(?:.*/)?` (a match starting after some `/` is a whole-string
match whose prefix ends with that `/`).  The embedding below represents the
regex fragments the compiler emits (`escapeRegExp`ped literal characters,
`[^/]`, `[^/]*`, `(?:.*/)?`, `(?:/.*)?`, concatenation by string splicing)
as an AST, and whole-string matching by Brzozowski derivatives.  JavaScript
`.` does not match a newline; paths are assumed newline-free, so `.` is
modelled as "any character". -/

inductive Regex where
  | eps : Regex
  | char (c : Char) : Regex
  | pred (p : Char → Bool) : Regex
  | alt (a b : Regex) : Regex
  | cat (a b : Regex) : Regex
  | star (a : Regex) : Regex

/-- Regex matching no string at all (used for failed derivatives). -/
def Regex.void : Regex := .pred fun _ => false

/-- Model of the `.` character class (any path character). -/
def anyChar : Regex := .pred fun _ => true

/-- Model of the `[^/]` character class. -/
def notSlash : Regex := .pred fun c => c != '/'

/-- Nullability: does the regex accept the empty string? -/
def Regex.nullable : Regex → Bool
  | .eps => true
  | .char _ => false
  | .pred _ => false
  | .alt a b => a.nullable || b.nullable
  | .cat a b => a.nullable && b.nullable
  | .star _ => true

/-- Brzozowski derivative of a regex by one character. -/
def Regex.deriv : Regex → Char → Regex
  | .eps, _ => .void
  | .char c, x => if x = c then .eps else .void
  | .pred p, x => if p x then .eps else .void
  | .alt a b, x => .alt (a.deriv x) (b.deriv x)
  | .cat a b, x => if a.nullable then .alt (.cat (a.deriv x) b) (b.deriv x) else .cat (a.deriv x) b
  | .star a, x => .cat (a.deriv x) (.star a)

/-- Executable whole-string matcher: repeatedly derive, then test nullability. -/
def Regex.rmatch (r : Regex) (s : List Char) : Bool :=
  (s.foldl Regex.deriv r).nullable

/-- Declarative acceptance relation for the regex AST. -/
inductive Accepts : Regex → List Char → Prop where
  | eps : Accepts .eps []
  | char (c : Char) : Accepts (.char c) [c]
  | pred (p : Char → Bool) (c : Char) : p c = true → Accepts (.pred p) [c]
  | altL {a b : Regex} {s : List Char} : Accepts a s → Accepts (.alt a b) s
  | altR {a b : Regex} {s : List Char} : Accepts b s → Accepts (.alt a b) s
  | cat {a b : Regex} {t u : List Char} : Accepts a t → Accepts b u → Accepts (.cat a b) (t ++ u)
  | starNil {a : Regex} : Accepts (.star a) []
  | starCons {a : Regex} {c : Char} {t u : List Char} :
      Accepts a (c :: t) → Accepts (.star a) u → Accepts (.star a) (c :: t ++ u)

theorem nullable_of_accepts_nil {r : Regex} {l : List Char} (h : Accepts r l) :
    l = [] → r.nullable = true := by
  induction h with
  | eps => intro; rfl
  | char c => intro hc; cases hc
  | pred p c hp => intro hc; cases hc
  | altL h ih => intro he; simp [Regex.nullable, ih he]
  | altR h ih => intro he; simp [Regex.nullable, ih he]
  | cat h1 h2 ih1 ih2 =>
      intro he
      rcases List.append_eq_nil.mp he with ⟨e1, e2⟩
      simp [Regex.nullable, ih1 e1, ih2 e2]
  | starNil => intro; rfl
  | starCons h1 h2 ih1 ih2 => intro he; cases he

theorem accepts_nil_of_nullable : ∀ (r : Regex), r.nullable = true → Accepts r []
  | .eps, _ => .eps
  | .char _, h => by simp [Regex.nullable] at h
  | .pred _, h => by simp [Regex.nullable] at h
  | .alt a b, h => by
      rcases Bool.or_eq_true_iff.mp h with h1 | h2
      · exact .altL (accepts_nil_of_nullable a h1)
      · exact .altR (accepts_nil_of_nullable b h2)
  | .cat a b, h => by
      rcases Bool.and_eq_true_iff.mp h with ⟨h1, h2⟩
      exact (accepts_nil_of_nullable a h1).cat (accepts_nil_of_nullable b h2)
  | .star _, _ => .starNil

theorem accepts_of_deriv : ∀ (r : Regex) (c : Char) (s : List Char),
    Accepts (r.deriv c) s → Accepts r (c :: s) := by
  intro r
  induction r with
  | eps => intro c s h; cases h with | pred p c hp => cases hp
  | char c0 =>
      intro c s h
      by_cases hc : c = c0
      · subst hc
        simp [Regex.deriv] at h
        cases h
        exact .char c
      · simp [Regex.deriv, hc] at h
        cases h with | pred p c hp => cases hp
  | pred p =>
      intro c s h
      by_cases hp : p c = true
      · simp [Regex.deriv, hp] at h
        cases h
        exact .pred p c hp
      · simp [Regex.deriv, hp] at h
        cases h with | pred q c hq => cases hq
  | alt a b iha ihb =>
      intro c s h
      cases h with
      | altL h => exact .altL (iha c s h)
      | altR h => exact .altR (ihb c s h)
  | cat a b iha ihb =>
      intro c s h
      by_cases hn : a.nullable = true
      · simp only [Regex.deriv, hn, if_pos] at h
        cases h with
        | altL h =>
            cases h with
            | cat h1 h2 => exact Accepts.cat (iha _ _ h1) h2
        | altR h =>
            exact Accepts.cat (accepts_nil_of_nullable a hn) (ihb c s h)
      · simp only [Regex.deriv, hn, if_neg, Bool.not_eq_true] at h
        cases h with
        | cat h1 h2 => exact Accepts.cat (iha _ _ h1) h2
  | star a iha =>
      intro c s h
      cases h with
      | cat h1 h2 => exact Accepts.starCons (iha _ _ h1) h2

theorem deriv_of_accepts {r : Regex} {l : List Char} (h : Accepts r l) :
    ∀ c s, l = c :: s → Accepts (r.deriv c) s := by
  induction h with
  | eps => intro c s hcs; cases hcs
  | char c0 =>
      intro c s hcs
      cases hcs
      simp only [Regex.deriv, if_pos rfl]
      exact .eps
  | pred p c0 hp =>
      intro c s hcs
      cases hcs
      simp only [Regex.deriv, hp, if_pos]
      exact .eps
  | altL h ih =>
      intro c s hcs
      exact .altL (ih c s hcs)
  | altR h ih =>
      intro c s hcs
      exact .altR (ih c s hcs)
  | @cat a b t u h1 h2 ih1 ih2 =>
      intro c s hcs
      cases t with
      | nil =>
          have hn : a.nullable = true := nullable_of_accepts_nil h1 rfl
          simp only [List.nil_append] at hcs
          simp only [Regex.deriv, hn, if_pos]
          exact .altR (ih2 c s hcs)
      | cons c0 t0 =>
          simp only [List.cons_append, List.cons.injEq] at hcs
          obtain ⟨he, hs⟩ := hcs
          subst hs
          subst he
          by_cases hn : a.nullable = true
          · simp only [Regex.deriv, hn, if_pos]
            exact .altL ((ih1 _ _ rfl).cat h2)
          · simp only [Regex.deriv, hn, Bool.false_eq_true, if_neg, not_false_iff]
            exact (ih1 _ _ rfl).cat h2
  | starNil => intro c s hcs; cases hcs
  | @starCons a c0 t u h1 h2 ih1 ih2 =>
      intro c s hcs
      simp only [List.cons_append, List.cons.injEq] at hcs
      obtain ⟨he, hs⟩ := hcs
      subst hs
      subst he
      exact (ih1 _ _ rfl).cat h2

theorem rmatch_iff_accepts : ∀ (s : List Char) (r : Regex), r.rmatch s = true ↔ Accepts r s := by
  intro s
  induction s with
  | nil =>
      intro r
      constructor
      · exact accepts_nil_of_nullable r
      · intro h; exact nullable_of_accepts_nil h rfl
  | cons c s ih =>
      intro r
      constructor
      · intro h
        exact accepts_of_deriv r c s ((ih (r.deriv c)).mp h)
      · intro h
        exact (ih (r.deriv c)).mpr (deriv_of_accepts h c s rfl)

theorem accepts_star_any : ∀ (s : List Char), Accepts (.star anyChar) s
  | [] => .starNil
  | c :: s => by
      have h : Accepts (.star anyChar) (c :: ([] ++ s)) :=
        Accepts.starCons (Accepts.pred _ c rfl) (accepts_star_any s)
      simpa using h

/-! ## String helpers

The source manipulates JavaScript strings (`trim`, `split`, `join`,
`startsWith`, `slice`, `replace`).  They are modelled on the character
lists of Lean strings so that every operation reduces inside the kernel.
JavaScript `trim` strips Unicode whitespace; the model strips ASCII
whitespace, which is the same on every character the program ever treats
specially. -/

/-- Model of `String.prototype.trim` on a character list. -/
def trimList (cs : List Char) : List Char :=
  ((cs.dropWhile Char.isWhitespace).reverse.dropWhile Char.isWhitespace).reverse

/-- Model of `str.split(sep)` for a one-character separator (JavaScript
semantics: `"".split` is `[""]`, separators at the ends produce empty
pieces). -/
def splitChar (sep : Char) : List Char → List (List Char)
  | [] => [[]]
  | c :: rest =>
      match splitChar sep rest with
      | [] => [[c]]
      | h :: t => if c = sep then [] :: h :: t else (c :: h) :: t

/-- Model of `pattern.split("/")` from `patternToRegExp`. -/
def splitOnSlash (s : String) : List String :=
  (splitChar '/' s.toList).map List.asString

/-- Model of `content.split(/\r?\n/)` from `loadIgnoreRules`.  Splitting on
`'\n'` alone is equivalent for the program because each line is `trim`med
immediately afterwards, which removes a dangling `'\r'`. -/
def splitLines (s : String) : List String :=
  (splitChar '\n' s.toList).map List.asString

/-- Model of `Array.prototype.join("/")`. -/
def joinSlash : List String → String
  | [] => ""
  | [p] => p
  | p :: q :: rest => p ++ "/" ++ joinSlash (q :: rest)

/-- Model of `path.join`/`relativePosix` for extending a root-relative
posix path by one component: `path.join(".", n)` is `n`, otherwise
`d + "/" + n`. -/
def joinRel (rd name : String) : String :=
  if rd = "." then name else rd ++ "/" ++ name

/-! ## The pattern compiler (`patternToRegExp`, lines 321-367)

The source builds a regex source string; the embedding composes the same
fragments as AST nodes.  `escapeRegExp` (line 314) makes a character
literal in the regex string, which the AST expresses directly with
`Regex.char`, so it needs no counterpart here. -/

/-- Model of one character of a segment (the inner loop of
`patternToRegExp`): `*` becomes `[^/]*`, `?` becomes `[^/]`, anything else
an escaped literal. -/
def charToRegex (c : Char) : Regex :=
  if c = '*' then .star notSlash
  else if c = '?' then notSlash
  else .char c

/-- Concatenation of a list of regex fragments (string splicing in the
source). -/
def catList : List Regex → Regex
  | [] => .eps
  | r :: rest => .cat r (catList rest)

/-- Literal string as a regex (the `escapeRegExp(basePath)` fragment). -/
def litRegex (s : String) : Regex := catList (s.toList.map Regex.char)

/-- Model of the `(?:.*/)?` fragment emitted for a `**` segment. -/
def doubleStarFrag : Regex := .alt .eps (.cat (.star anyChar) (.char '/'))

/-- Model of one pattern segment. -/
def segToRegex (seg : String) : Regex :=
  if seg = "**" then doubleStarFrag
  else catList (seg.toList.map charToRegex)

/-- Model of the `(?:^|/)` prefix of an unanchored rule.  Under
`RegExp.test`'s substring search, `(?:^|/)P$` holds exactly when the whole
path matches `(?:.*/)?P`, which is the form represented here. -/
def startOrSlash : Regex := .alt .eps (.cat (.star anyChar) (.char '/'))

/-- Model of the `(?:/.*)?$` suffix of a directory-only rule (the `$` of
a plain rule is whole-string matching itself). -/
def optSubtree : Regex := .alt .eps (.cat (.char '/') (.star anyChar))

/-- Model of `patternToRegExp(pattern, anchored, baseDir, onlyDir)`
(lines 321-367), as a whole-string regex per the note on `startOrSlash`. -/
def patternToRegExp (pattern : String) (anchored : Bool) (baseDir : String) (onlyDir : Bool) :
    Regex :=
  let segments := splitOnSlash pattern
  let regexParts := segments.map segToRegex
  let body := catList (List.intersperse (Regex.char '/') regexParts)
  let tail := if onlyDir then optSubtree else Regex.eps
  if anchored then
    let basePath := if baseDir = "." then "" else baseDir ++ "/"
    .cat (litRegex basePath) (.cat body tail)
  else
    .cat startOrSlash (.cat body tail)

/-! ## Rules and the line parser (`loadIgnoreRules`, lines 372-433) -/

/-- Model of the `GitignoreRule` interface (lines 35-43).  The compiled
`RegExp` is replaced by the regex AST. -/
structure GitignoreRule where
  pattern : String
  isNegated : Bool
  onlyDir : Bool
  anchored : Bool
  baseDir : String
  regex : Regex
  original : String

/-- Characters whose backslash escape is undone by
`line.replace(/\\([\\!*?[\]{}()])/g, "$1")`. -/
def isMetaChar (c : Char) : Bool :=
  c = '\\' || c = '!' || c = '*' || c = '?' || c = '[' || c = ']' ||
  c = '\x7b' || c = '\x7d' || c = '(' || c = ')'

/-- Model of `line.replace(/\\([\\!*?[\]{}()])/g, "$1")`: a left-to-right,
non-overlapping scan replacing each backslash-meta pair by the meta
character. -/
def unescapeMetaList : List Char → List Char
  | [] => []
  | '\\' :: c :: rest =>
      if isMetaChar c then c :: unescapeMetaList rest
      else '\\' :: unescapeMetaList (c :: rest)
  | c :: rest => c :: unescapeMetaList rest

/-- Model of `line.replace(/\\/g, "/")`. -/
def backslashToSlash (cs : List Char) : List Char :=
  cs.map fun c => if c = '\\' then '/' else c

/-- Result of stripping a raw (already trimmed, non-blank, non-comment)
line: negation prefix, unescaping, directory suffix, anchor prefix. -/
structure StrippedLine where
  isNegated : Bool
  onlyDir : Bool
  anchored : Bool
  residue : List Char

/-- Model of the stripping steps of the rule-building loop body of
`loadIgnoreRules` (lines 388-409). -/
def stripLine (raw : List Char) : StrippedLine :=
  let isNegated := raw.head? = some '!'
  let l1 := if raw.head? = some '!' then raw.drop 1 else raw
  let l2 := unescapeMetaList l1
  let onlyDir := l2.getLast? = some '/'
  let l3 := if l2.getLast? = some '/' then l2.dropLast else l2
  let anchored := l3.head? = some '/'
  let l4 := if l3.head? = some '/' then l3.drop 1 else l3
  ⟨isNegated, onlyDir, anchored, l4⟩

/-- Model of one iteration of the rule-building loop of `loadIgnoreRules`
(lines 383-422): `none` when the trimmed line is blank or a comment,
otherwise the rule pushed for that line. -/
def parseLine (relativeDirPosix : String) (originalRaw : String) : Option GitignoreRule :=
  let raw := trimList originalRaw.toList
  if raw = [] ∨ raw.head? = some '#' then none
  else
    let st := stripLine raw
    let pattern := (backslashToSlash st.residue).asString
    some
      { pattern := pattern
        isNegated := st.isNegated
        onlyDir := st.onlyDir
        anchored := st.anchored
        baseDir := relativeDirPosix
        regex := patternToRegExp pattern st.anchored relativeDirPosix st.onlyDir
        original := originalRaw }

/-- Model of the whole body of `loadIgnoreRules` for an ignore file whose
text could be read: split into raw lines and keep the rule of each
rule-producing line, in order. -/
def parseIgnoreFile (content : String) (relativeDirPosix : String) : List GitignoreRule :=
  (splitLines content).filterMap (parseLine relativeDirPosix)

/-! ## The matcher (`matchRule` and `isIgnored`, lines 492-517) -/

/-- Model of `matchRule(relativePathPosix, rule, isDir)` (lines 492-502):
a directory-only rule never matches a non-directory; otherwise the
compiled regex is tested against the path. -/
def matchRule (relativePathPosix : String) (rule : GitignoreRule) (isDir : Bool) : Bool :=
  if rule.onlyDir && !isDir then false
  else rule.regex.rmatch relativePathPosix.toList

/-- Model of `isIgnored(relativePathPosix, isDir, rules)` (lines 507-517):
fold over the rules, each match overwriting the verdict. -/
def isIgnored (relativePathPosix : String) (isDir : Bool) (rules : List GitignoreRule) : Bool :=
  rules.foldl
    (fun ignored rule =>
      if matchRule relativePathPosix rule isDir then !rule.isNegated else ignored)
    false

/-! ## Rule tables and the accumulator (`RulesAccumulator`, lines 454-487)

A JavaScript `Map` keyed by strings is modelled as an association list
with first-match lookup; `Map.set` replaces in place or appends. -/

/-- First-match lookup in an association list (model of `Map.get`). -/
def mapLookup {α : Type} : List (String × α) → String → Option α
  | [], _ => none
  | (k, v) :: rest, key => if k = key then some v else mapLookup rest key

/-- Model of `Map.set`: replace the value at an existing key in place,
otherwise append the binding. -/
def mapSet {α : Type} (m : List (String × α)) (key : String) (v : α) : List (String × α) :=
  if (mapLookup m key).isSome then m.map fun kv => if kv.1 = key then (key, v) else kv
  else m ++ [(key, v)]

/-- Model of the `RulesMap` type (line 45). -/
def RulesMap : Type := List (String × List GitignoreRule)

/-- Model of the cache-miss computation of `RulesAccumulator.accumulate`
(lines 470-482): walk the ancestor chain from the root to the directory,
appending each ancestor's content rules then its marker rules. -/
def accumulateRules (g k : RulesMap) (relativeDirPosix : String) : List GitignoreRule :=
  let parts := if relativeDirPosix = "." then [] else splitOnSlash relativeDirPosix
  (List.range (parts.length + 1)).foldl
    (fun acc i =>
      let dir := if i = 0 then "." else joinSlash (parts.take i)
      acc ++ ((mapLookup g dir).getD [] ++ (mapLookup k dir).getD []))
    []

/-- Model of the `RulesAccumulator` class state (lines 454-463). -/
structure RulesAccumulator where
  gitignoreMap : RulesMap
  gitkeepIgnoreMap : RulesMap
  cache : List (String × List GitignoreRule)

/-- Model of `RulesAccumulator.accumulate` (lines 465-486); the mutation
of the memo table is returned as an updated accumulator. -/
def RulesAccumulator.accumulate (a : RulesAccumulator) (relativeDirPosix : String) :
    List GitignoreRule × RulesAccumulator :=
  match mapLookup a.cache relativeDirPosix with
  | some rs => (rs, a)
  | none =>
      let accumulated := accumulateRules a.gitignoreMap a.gitkeepIgnoreMap relativeDirPosix
      (accumulated, { a with cache := mapSet a.cache relativeDirPosix accumulated })

/-- Spec-side description of the ancestor chain of a directory: every
prefix of its path, root (`"."`) first, the directory itself last. -/
def specChain (relativeDirPosix : String) : List String :=
  let parts := if relativeDirPosix = "." then [] else splitOnSlash relativeDirPosix
  parts.inits.map fun pre => if pre = [] then "." else joinSlash pre

/-- Spec-side description of the accumulated rule list: the concatenation,
over the ancestor chain in root-first order, of the directory's
content-table rules followed by its marker-table rules, absent entries
contributing nothing. -/
def specAccumulated (g k : RulesMap) (relativeDirPosix : String) : List GitignoreRule :=
  ((specChain relativeDirPosix).map fun dir =>
    (mapLookup g dir).getD [] ++ (mapLookup k dir).getD []).flatten

theorem foldl_append_flatten {α β : Type} (f : α → List β) :
    ∀ (l : List α) (acc : List β),
      l.foldl (fun a i => a ++ f i) acc = acc ++ (l.map f).flatten := by
  intro l
  induction l with
  | nil => intro acc; simp
  | cons x xs ih => intro acc; simp [ih, List.append_assoc]

theorem range_map_eq_inits_map {α : Type} (parts : List String) (G : String → α) :
    (List.range (parts.length + 1)).map
        (fun i => G (if i = 0 then "." else joinSlash (parts.take i)))
      = parts.inits.map (fun pre => G (if pre = [] then "." else joinSlash pre)) := by
  apply List.ext_getElem
  · simp
  · intro i h1 h2
    simp only [List.getElem_map, List.getElem_range, List.getElem_inits]
    rcases i with _ | j
    · simp
    · have hj : j + 1 ≤ parts.length := by
        have := h2
        simp only [List.length_map, List.length_inits] at this
        omega
      have htake : parts.take (j + 1) ≠ [] := by
        intro hemp
        have hl := List.length_take (j + 1) parts
        rw [hemp] at hl
        simp only [List.length_nil] at hl
        omega
      rw [if_neg (Nat.succ_ne_zero j), if_neg htake]

theorem accumulateRules_eq_spec (g k : RulesMap) (d : String) :
    accumulateRules g k d = specAccumulated g k d := by
  unfold accumulateRules specAccumulated specChain
  dsimp only
  rw [foldl_append_flatten, List.nil_append, List.map_map]
  congr 1
  exact range_map_eq_inits_map (if d = "." then [] else splitOnSlash d)
    (fun dir => (mapLookup g dir).getD [] ++ (mapLookup k dir).getD [])

theorem mapLookup_mapSet_self {α : Type} (m : List (String × α)) (key : String) (v : α)
    (h : mapLookup m key = none) : mapLookup (mapSet m key v) key = some v := by
  unfold mapSet
  rw [h]
  simp only [Option.isSome_none, Bool.false_eq_true, if_neg, not_false_iff]
  induction m with
  | nil => simp [mapLookup]
  | cons kv rest ih =>
      rcases kv with ⟨k0, v0⟩
      by_cases hk : k0 = key
      · subst hk
        simp [mapLookup] at h
      · simp only [mapLookup, hk, if_neg, not_false_iff, List.cons_append] at h ⊢
        exact ih h

/-! ## Configuration, summary and the filesystem model -/

/-- The fixed file names of the program (lines 18-21). -/
def gitignoreFilename : String := ".gitignore"

/-- The marker-specific ignore file name (line 21). -/
def gitkeepIgnoreFilename : String := ".gitkeepignore"

/-- The default marker file name (line 18). -/
def gitkeepDefaultName : String := ".gitkeep"

/-- Model of the `Config` interface (lines 47-58), restricted to the
fields the core reads.  `root`, `verbose` and `reportFile` only drive
logging and reporting and are omitted. -/
structure Config where
  dryRun : Bool
  content : String
  clean : Bool
  check : Bool
  excludeDirs : List String
  gitkeepName : String
  respectGitkeepIgnore : Bool

/-- Model of the `Summary` interface (lines 60-65). -/
structure Summary where
  created : List String
  removed : List String
  skipped : List String
  errors : List String

/-- The fresh summary built in `main` (lines 837-842). -/
def emptySummary : Summary := ⟨[], [], [], []⟩

/-- Model of a directory's contents.  `ok` is true when `fs.readdir`
succeeds on the directory; the walker and the loader never look inside a
directory whose listing fails.  Since the source immediately partitions
`readdir` results into files and subdirectories and treats the two groups
independently, entries are stored pre-partitioned: files as
(name, content) pairs, subdirectories as (name, subtree) pairs, each group
in listing order. -/
inductive FsTree where
  | node (ok : Bool) (files : List (String × String)) (dirs : List (String × FsTree))

/-- Result of walking one directory: the directory's contents after any
marker writes/deletes, the updated summary, the `info` diagnostics printed
so far (check mode), and the returned emptiness flag. -/
structure WalkResult where
  tree : FsTree
  summary : Summary
  infos : List String
  isEmpty : Bool

/-- Result of walking the subdirectory list of one directory. -/
structure WalkDirsResult where
  dirs : List (String × FsTree)
  summary : Summary
  infos : List String
  anyNonEmpty : Bool

/-- Model of the filter on lines 578-586: files visible to the emptiness
computation, i.e. direct files that are not the marker and not ignored. -/
def visibleFiles (cfg : Config) (rules : List GitignoreRule) (relativeDir : String)
    (files : List (String × String)) : List (String × String) :=
  files.filter fun f =>
    if f.1 == cfg.gitkeepName then false
    else !(isIgnored (joinRel relativeDir f.1) false rules)

/-- Model of `createGitkeep` (lines 626-645): in dry-run mode nothing
happens; otherwise the marker file is written with the configured content
and the relative path is appended to `created`.  Write failures are not
modelled (they would only append to `errors`). -/
def createGitkeep (cfg : Config) (relativeDir : String) (files : List (String × String))
    (s : Summary) : List (String × String) × Summary :=
  if cfg.dryRun then (files, s)
  else
    (files ++ [(cfg.gitkeepName, cfg.content)],
     { s with created := s.created ++ [joinRel relativeDir cfg.gitkeepName] })

/-- Model of `removeGitkeep` (lines 650-669), analogously. -/
def removeGitkeep (cfg : Config) (relativeDir : String) (files : List (String × String))
    (s : Summary) : List (String × String) × Summary :=
  if cfg.dryRun then (files, s)
  else
    (files.filter fun f => !(f.1 == cfg.gitkeepName),
     { s with removed := s.removed ++ [joinRel relativeDir cfg.gitkeepName] })

/-- The diagnostic recorded when a directory listing fails (lines
557-561); the model uses root-relative paths throughout. -/
def readdirErrorMsg (relativeDir : String) : String :=
  "failed to read directory " ++ relativeDir

/-- The check-mode diagnostic for an empty directory without a marker
(line 602). -/
def checkMsgEmpty (cfg : Config) (relativeDir : String) : String :=
  relativeDir ++ " - empty directory without " ++ cfg.gitkeepName

/-- The check-mode diagnostic for a non-empty directory with a marker
(line 604). -/
def checkMsgNonEmpty (cfg : Config) (relativeDir : String) : String :=
  relativeDir ++ " - non-empty directory with " ++ cfg.gitkeepName

/-! ## The walker (`walkDirectory`, lines 526-621)

The source threads a shared `summary` by mutation and calls
`rulesAccumulator.accumulate`; the model threads the summary (and the
`info` log) explicitly and reads the accumulated rules through the pure
`accumulateRules`, which `RulesAccumulator.accumulate` is proved to
compute (the memo table is transparent).  `relativeDir` and `dirName` are
passed directly instead of being recomputed from an absolute path. -/

/-- The non-recursive tail of one `walkDirectory` invocation on a listable
directory (lines 577-620): compute the visible files, the marker presence
and the emptiness from the pre-recursion file list and the subdirectory
walk's outcome, then branch on the operating mode (clean first, then
check, then normal). -/
def applyMode (cfg : Config) (relativeDir : String) (rules : List GitignoreRule)
    (files : List (String × String)) (sub : WalkDirsResult) : WalkResult :=
  let visible := visibleFiles cfg rules relativeDir files
  let hasGitkeep := files.any fun f => f.1 == cfg.gitkeepName
  let empt := visible.isEmpty && !sub.anyNonEmpty
  if cfg.clean then
    if hasGitkeep then
      let rm := removeGitkeep cfg relativeDir files sub.summary
      ⟨.node true rm.1 sub.dirs, rm.2, sub.infos, empt⟩
    else ⟨.node true files sub.dirs, sub.summary, sub.infos, empt⟩
  else if cfg.check then
    if empt && !hasGitkeep then
      ⟨.node true files sub.dirs, sub.summary,
       sub.infos ++ [checkMsgEmpty cfg relativeDir], empt⟩
    else if !empt && hasGitkeep then
      ⟨.node true files sub.dirs, sub.summary,
       sub.infos ++ [checkMsgNonEmpty cfg relativeDir], empt⟩
    else ⟨.node true files sub.dirs, sub.summary, sub.infos, empt⟩
  else
    if empt then
      if !hasGitkeep then
        let cr := createGitkeep cfg relativeDir files sub.summary
        ⟨.node true cr.1 sub.dirs, cr.2, sub.infos, empt⟩
      else ⟨.node true files sub.dirs, sub.summary, sub.infos, empt⟩
    else
      if hasGitkeep then
        let rm := removeGitkeep cfg relativeDir files sub.summary
        ⟨.node true rm.1 sub.dirs, rm.2, sub.infos, empt⟩
      else ⟨.node true files sub.dirs, sub.summary, sub.infos, empt⟩

mutual

/-- Model of `walkDirectory(dirPath, rootPath, rulesAccumulator, summary)`. -/
def walkDirectory (cfg : Config) (g k : RulesMap) (relativeDir dirName : String)
    (t : FsTree) (s : Summary) (infos : List String) : WalkResult :=
  match t with
  | .node ok files dirs =>
      if cfg.excludeDirs.contains dirName then
        ⟨.node ok files dirs, s, infos, true⟩
      else
        let rules := accumulateRules g k relativeDir
        if isIgnored relativeDir true rules then
          ⟨.node ok files dirs, { s with skipped := s.skipped ++ [relativeDir] }, infos, true⟩
        else if ok then
          applyMode cfg relativeDir rules files (walkDirs cfg g k relativeDir dirs s infos)
        else
          ⟨.node ok files dirs,
           { s with errors := s.errors ++ [readdirErrorMsg relativeDir] }, infos, true⟩

/-- The recursion over subdirectories (lines 567-575), in listing order,
collecting whether any child returned empty = false. -/
def walkDirs (cfg : Config) (g k : RulesMap) (relativeDir : String)
    (ds : List (String × FsTree)) (s : Summary) (infos : List String) : WalkDirsResult :=
  match ds with
  | [] => ⟨[], s, infos, false⟩
  | (name, sub) :: rest =>
      let w := walkDirectory cfg g k (joinRel relativeDir name) name sub s infos
      let r := walkDirs cfg g k relativeDir rest w.summary w.infos
      ⟨(name, w.tree) :: r.dirs, r.summary, r.infos, (!w.isEmpty) || r.anyNonEmpty⟩

end

/-! ## The rule-table loader (`loadAllIgnoreRules`, lines 678-722) -/

/-- Model of `fileExists` + `fs.readFile` on a directory's file list:
the content of the first file with the given name, if any.  Read failures
are not modelled (they would only make the file contribute zero rules). -/
def findFile : List (String × String) → String → Option String
  | [], _ => none
  | (n, c) :: rest, name => if n = name then some c else findFile rest name

/-- Model of `loadIgnoreRules(dirPath, relativeDirPosix, filename)`
(lines 372-433): no file, no rules; otherwise parse each line. -/
def loadIgnoreRulesFrom (files : List (String × String)) (relativeDirPosix filename : String) :
    List GitignoreRule :=
  match findFile files filename with
  | none => []
  | some content => parseIgnoreFile content relativeDirPosix

mutual

/-- Model of `recursiveLoad` inside `loadAllIgnoreRules` (lines 685-717):
load this directory's two ignore files into the tables (an entry only when
non-empty; the marker-ignore file only when enabled), then recurse into
the non-excluded subdirectories; a failed listing ends the recursion below
this directory but keeps the entries already made. -/
def recursiveLoad (cfg : Config) (relativeDirPosix : String) (t : FsTree)
    (g k : RulesMap) : RulesMap × RulesMap :=
  match t with
  | .node ok files dirs =>
      let gitignoreRules := loadIgnoreRulesFrom files relativeDirPosix gitignoreFilename
      let g1 := if gitignoreRules.isEmpty then g
        else mapSet g relativeDirPosix gitignoreRules
      let gitkeepIgnoreRules :=
        if cfg.respectGitkeepIgnore then
          loadIgnoreRulesFrom files relativeDirPosix gitkeepIgnoreFilename
        else []
      let k1 := if gitkeepIgnoreRules.isEmpty then k
        else mapSet k relativeDirPosix gitkeepIgnoreRules
      if ok then loadDirs cfg relativeDirPosix dirs g1 k1 else (g1, k1)

/-- The loader's recursion over subdirectory entries (lines 705-716),
skipping excluded names. -/
def loadDirs (cfg : Config) (relativeDirPosix : String)
    (ds : List (String × FsTree)) (g k : RulesMap) : RulesMap × RulesMap :=
  match ds with
  | [] => (g, k)
  | (name, sub) :: rest =>
      if cfg.excludeDirs.contains name then loadDirs cfg relativeDirPosix rest g k
      else
        let p := recursiveLoad cfg (joinRel relativeDirPosix name) sub g k
        loadDirs cfg relativeDirPosix rest p.1 p.2

end

/-- Model of `loadAllIgnoreRules(rootPath)` (lines 678-722). -/
def loadAllIgnoreRules (cfg : Config) (t : FsTree) : RulesMap × RulesMap :=
  recursiveLoad cfg "." t [] []

/-- Model of one whole run of `main`'s core (lines 829-846): load the rule
tables from the tree, then walk it from the root (relative path `"."`,
directory name the root's base name) with a fresh summary. -/
def runWalk (cfg : Config) (rootName : String) (t : FsTree) : WalkResult :=
  let maps := loadAllIgnoreRules cfg t
  walkDirectory cfg maps.1 maps.2 "." rootName t emptySummary []

/-! ## The computed emptiness of a directory

Derived characterisation of the boolean a directory's walk returns,
independent of the operating mode: excluded, ignored and unlistable
directories count as empty; an evaluated directory is empty when it has no
visible files and no non-empty subdirectory. -/

mutual

/-- The emptiness verdict the walker's recursion computes for a
directory. -/
def computedEmptiness (cfg : Config) (g k : RulesMap) (relativeDir dirName : String)
    (t : FsTree) : Bool :=
  match t with
  | .node ok files dirs =>
      if cfg.excludeDirs.contains dirName then true
      else
        let rules := accumulateRules g k relativeDir
        if isIgnored relativeDir true rules then true
        else if ok then
          (visibleFiles cfg rules relativeDir files).isEmpty &&
            allEmptiness cfg g k relativeDir dirs
        else true

/-- All subdirectories in the list are computed empty. -/
def allEmptiness (cfg : Config) (g k : RulesMap) (relativeDir : String) :
    List (String × FsTree) → Bool
  | [] => true
  | (name, sub) :: rest =>
      computedEmptiness cfg g k (joinRel relativeDir name) name sub &&
        allEmptiness cfg g k relativeDir rest

end

/-! ## Claim C1: the matcher implements last-match-wins -/

/-- Spec-side description of the matcher's verdict: the verdict of the
last rule in the list that matches the path and type, and "not ignored"
when no rule matches. -/
def specVerdict (p : String) (isDir : Bool) (rules : List GitignoreRule) : Bool :=
  match (rules.filter fun r => matchRule p r isDir).getLast? with
  | some r => !r.isNegated
  | none => false

theorem isIgnored_eq_specVerdict (p : String) (d : Bool) (rules : List GitignoreRule) :
    isIgnored p d rules = specVerdict p d rules := by
  induction rules using List.reverseRecOn with
  | nil => rfl
  | append_singleton l r ih =>
      unfold isIgnored at ih ⊢
      rw [List.foldl_append]
      unfold specVerdict at ih ⊢
      rw [List.filter_append]
      by_cases hm : matchRule p r d = true
      · simp only [List.foldl_cons, List.foldl_nil, hm, if_pos, List.filter_cons, List.filter_nil,
          List.getLast?_concat]
      · simp only [List.foldl_cons, List.foldl_nil, hm, Bool.false_eq_true, if_neg,
          not_false_iff, List.filter_cons, List.filter_nil, List.append_nil]
        exact ih

theorem isIgnored_append_nonmatching (rules : List GitignoreRule) (p : String) (d : Bool)
    (r : GitignoreRule) (h : matchRule p r d = false) :
    isIgnored p d (rules ++ [r]) = isIgnored p d rules := by
  unfold isIgnored
  rw [List.foldl_append]
  simp [h]

/-- C1: for every ordered rule list and every path with a type flag,
`isIgnored` returns the verdict of the last matching rule (negated rules
yielding "not ignored"), "not ignored" when no rule matches, and appending
a rule that does not match never changes the verdict. -/
theorem c1_isIgnored_last_match_wins :
    (∀ (rules : List GitignoreRule) (p : String) (d : Bool),
        isIgnored p d rules = specVerdict p d rules) ∧
    (∀ (rules : List GitignoreRule) (p : String) (d : Bool) (r : GitignoreRule),
        matchRule p r d = false → isIgnored p d (rules ++ [r]) = isIgnored p d rules) :=
  ⟨fun rules p d => isIgnored_eq_specVerdict p d rules, isIgnored_append_nonmatching⟩

/-- Concrete rule list for the C1 witness: the rules of an ignore file
with lines `*.log` and `!important.log` at the root. -/
def c1Rules : List GitignoreRule := parseIgnoreFile "*.log\n!important.log" "."

/-- Concrete non-matching rule for the C1 witness: a directory-only rule,
which never matches a path queried as a file. -/
def c1Extra : GitignoreRule :=
  ⟨"build", false, true, false, ".", patternToRegExp "build" false "." true, "build/"⟩

theorem c1_witness :
    isIgnored "src/app.log" false c1Rules = specVerdict "src/app.log" false c1Rules ∧
    isIgnored "src/app.log" false (c1Rules ++ [c1Extra]) = isIgnored "src/app.log" false c1Rules :=
  ⟨c1_isIgnored_last_match_wins.1 c1Rules "src/app.log" false,
   c1_isIgnored_last_match_wins.2 c1Rules "src/app.log" false c1Extra (by decide)⟩

/-! ## Claim C2: the directory-only rule `build/`

`matchRule` returns false for every directory-only rule whenever the
queried type flag is "file" (line 493), so the compiled rule for `build/`
matches `build` and everything beneath it only when the query is for a
directory; a path beneath `build` queried as a file is not matched. -/

/-- The rule compiled from the line `build/` at the root. -/
def c2Rule : GitignoreRule :=
  ⟨"build", false, true, false, ".", patternToRegExp "build" false "." true, "build/"⟩

/-- C2 counterexample: the rule compiled from `build/` does not match the
path `build/app.log` — a path beneath `build` — when that path is queried
as a file, contradicting "matches every path beneath `build`". -/
theorem c2_counterexample :
    parseLine "." "build/" = some c2Rule ∧
    matchRule "build/app.log" c2Rule false = false :=
  ⟨rfl, by decide⟩

/-- C2 (amended): the rule compiled from the line `build/` matches the
path `build` queried as a directory and every path beneath `build` queried
as a directory, and matches no path at all — neither `build` nor any path
beneath it — queried as a file. -/
theorem c2_directory_only_rule (bd : String) (r : GitignoreRule)
    (h : parseLine bd "build/" = some r) :
    matchRule "build" r true = true ∧
    (∀ s : String, matchRule ("build/" ++ s) r true = true) ∧
    (∀ s : String, matchRule s r false = false) := by
  have hr : r = ⟨"build", false, true, false, bd, patternToRegExp "build" false bd true,
      "build/"⟩ := by
    have he : parseLine bd "build/" =
        some ⟨"build", false, true, false, bd, patternToRegExp "build" false bd true,
          "build/"⟩ := rfl
    rw [he] at h
    exact (Option.some.injEq _ _).mp h.symm
  subst hr
  refine ⟨?_, ?_, ?_⟩
  · show Regex.rmatch (patternToRegExp "build" false bd true) "build".toList = true
    have hb : patternToRegExp "build" false bd true = patternToRegExp "build" false "." true :=
      rfl
    rw [hb]
    decide
  · intro s
    unfold matchRule
    simp only [Bool.not_true, Bool.and_false, Bool.false_eq_true, if_neg, not_false_iff]
    apply (rmatch_iff_accepts _ _).mpr
    have hl : ("build/" ++ s).toList = [] ++ ("build".toList ++ ('/' :: s.toList)) := by
      simp [String.toList]
    rw [hl]
    show Accepts (patternToRegExp "build" false bd true) _
    have h1 : Accepts startOrSlash [] := .altL .eps
    have h2 : Accepts (catList [segToRegex "build"]) "build".toList :=
      (rmatch_iff_accepts _ _).mp (by decide)
    have h3 : Accepts optSubtree ('/' :: s.toList) :=
      .altR ((Accepts.char '/').cat (accepts_star_any s.toList))
    exact h1.cat (h2.cat h3)
  · intro s
    rfl

theorem c2_witness :
    matchRule "build" c2Rule true = true ∧
    matchRule ("build/" ++ "app.log") c2Rule true = true ∧
    matchRule "build" c2Rule false = false := by
  obtain ⟨h1, h2, h3⟩ := c2_directory_only_rule "." c2Rule rfl
  exact ⟨h1, h2 "app.log", h3 "build"⟩

/-! ## Claim C5: lines that strip to nothing

The rule-building loop of `loadIgnoreRules` pushes a rule for every
trimmed, non-blank, non-comment line with no further test: a line such as
`!`, `/` or `!/`, whose content is empty after stripping the negation mark
and the slashes, still produces a rule — one whose pattern text is empty.
(Such a rule is inert on the walker's paths: its regex only accepts the
empty path or paths with a leading, trailing or doubled slash.) -/

/-- C5 counterexample: each of the lines `!`, `/` and `!/` yields exactly
one rule, not zero rules. -/
theorem c5_counterexample :
    (parseIgnoreFile "!" ".").length = 1 ∧
    (parseIgnoreFile "/" ".").length = 1 ∧
    (parseIgnoreFile "!/" ".").length = 1 := by
  refine ⟨?_, ?_, ?_⟩ <;> decide

/-- C5 (amended): every ignore-file line that is non-blank and not a
comment after trimming, and whose content is empty after stripping the
negation `!`, the trailing directory slash and the leading anchor slash,
yields exactly one rule, whose pattern text is empty. -/
theorem c5_empty_line_yields_empty_pattern_rule (dir raw : String)
    (h1 : trimList raw.toList ≠ [])
    (h2 : (trimList raw.toList).head? ≠ some '#')
    (h3 : (stripLine (trimList raw.toList)).residue = []) :
    ∃ r, parseLine dir raw = some r ∧ r.pattern = "" := by
  unfold parseLine
  rw [if_neg (not_or.mpr ⟨h1, h2⟩)]
  refine ⟨_, rfl, ?_⟩
  show (backslashToSlash (stripLine (trimList raw.toList)).residue).asString = ""
  rw [h3]
  rfl

theorem c5_witness : ∃ r, parseLine "." "!" = some r ∧ r.pattern = "" :=
  c5_empty_line_yields_empty_pattern_rule "." "!" (by decide) (by decide) (by decide)

/-! ## Claim C4: the rule accumulator -/

/-- C4: on a cache miss, `accumulate` returns the root-first concatenation
over the ancestor chain of each directory's content-table rules followed
by its marker-table rules (absent entries contributing nothing) and caches
it under the directory path; on a cache hit it returns the cached list
with the state unchanged; in particular a second call with the same
directory path returns the first call's list from the cache without
recomputation. -/
theorem c4_accumulate :
    (∀ (a : RulesAccumulator) (d : String),
        mapLookup a.cache d = none →
          (a.accumulate d).1 = specAccumulated a.gitignoreMap a.gitkeepIgnoreMap d ∧
          (a.accumulate d).2 =
            { a with cache := mapSet a.cache d (a.accumulate d).1 }) ∧
    (∀ (a : RulesAccumulator) (d : String) (rs : List GitignoreRule),
        mapLookup a.cache d = some rs → a.accumulate d = (rs, a)) ∧
    (∀ (a : RulesAccumulator) (d : String),
        ((a.accumulate d).2).accumulate d = ((a.accumulate d).1, (a.accumulate d).2)) := by
  refine ⟨?_, ?_, ?_⟩
  · intro a d h
    unfold RulesAccumulator.accumulate
    rw [h]
    exact ⟨accumulateRules_eq_spec _ _ _, rfl⟩
  · intro a d rs h
    unfold RulesAccumulator.accumulate
    rw [h]
  · intro a d
    rcases hl : mapLookup a.cache d with _ | rs
    · have h1 : a.accumulate d =
          (accumulateRules a.gitignoreMap a.gitkeepIgnoreMap d,
            ⟨a.gitignoreMap, a.gitkeepIgnoreMap,
              mapSet a.cache d (accumulateRules a.gitignoreMap a.gitkeepIgnoreMap d)⟩) := by
        unfold RulesAccumulator.accumulate
        rw [hl]
      rw [h1]
      unfold RulesAccumulator.accumulate
      rw [mapLookup_mapSet_self _ _ _ hl]
    · have h1 : a.accumulate d = (rs, a) := by
        unfold RulesAccumulator.accumulate
        rw [hl]
      rw [h1]
      unfold RulesAccumulator.accumulate
      rw [hl]

/-- Concrete accumulator with an empty cache for the C4 witness. -/
def c4Acc : RulesAccumulator :=
  ⟨[(".", c1Rules), ("sub", [c1Extra])], [("sub", [c2Rule])], []⟩

/-- Concrete accumulator whose cache already holds `"sub"` for the C4
witness. -/
def c4AccCached : RulesAccumulator :=
  ⟨[(".", c1Rules)], [], [("sub", [c2Rule])]⟩

theorem c4_witness :
    (c4Acc.accumulate "sub").1 =
      specAccumulated c4Acc.gitignoreMap c4Acc.gitkeepIgnoreMap "sub" ∧
    c4AccCached.accumulate "sub" = ([c2Rule], c4AccCached) ∧
    ((c4Acc.accumulate "sub").2).accumulate "sub" =
      ((c4Acc.accumulate "sub").1, (c4Acc.accumulate "sub").2) := by
  obtain ⟨h1, h2, h3⟩ := c4_accumulate
  exact ⟨(h1 c4Acc "sub" rfl).1, h2 c4AccCached "sub" [c2Rule] rfl, h3 c4Acc "sub"⟩

/-! ## Claim C7: the marker file is never visible -/

/-- C7: the configured marker filename is excluded from a directory's
visible files under every rule list whatsoever (the name test happens
before any rule is consulted), and a directory whose only direct file is
the marker has no visible files. -/
theorem c7_marker_never_visible :
    (∀ (cfg : Config) (rules : List GitignoreRule) (relativeDir : String)
        (files : List (String × String)),
        ((visibleFiles cfg rules relativeDir files).all
          fun f => !(f.1 == cfg.gitkeepName)) = true) ∧
    (∀ (cfg : Config) (rules : List GitignoreRule) (relativeDir content : String),
        visibleFiles cfg rules relativeDir [(cfg.gitkeepName, content)] = []) := by
  constructor
  · intro cfg rules relativeDir files
    rw [List.all_eq_true]
    intro f hf
    have hp := List.of_mem_filter hf
    by_cases hm : (f.1 == cfg.gitkeepName) = true
    · rw [if_pos hm] at hp
      cases hp
    · simp [hm]
  · intro cfg rules relativeDir content
    unfold visibleFiles
    rw [List.filter_cons]
    simp

/-! ## Claim C3: excluded directory names

The walker's exclusion branch (lines 538-541) only logs and returns true:
unlike the ignored-directory branch (lines 547-551) it does not append the
directory to the summary's skipped list. -/

/-- Concrete configuration for the C3 counterexample. -/
def c3Cfg : Config :=
  ⟨false, "", false, false, [".git", "node_modules"], ".gitkeep", true⟩

/-- C3 counterexample: walking a directory whose bare name is in the
excluded-name set leaves the skipped list empty — the claimed append to
the skipped list does not happen. -/
theorem c3_counterexample :
    (walkDirectory c3Cfg [] [] "node_modules" "node_modules"
        (.node true [("a.txt", "x")] []) emptySummary []).summary.skipped = [] ∧
    (walkDirectory c3Cfg [] [] "node_modules" "node_modules"
        (.node true [("a.txt", "x")] []) emptySummary []).isEmpty = true := by
  constructor <;> rfl

/-- C3 (amended): for every directory whose bare name is in the configured
excluded-name set, the walker does not descend into it, performs no marker
action inside it, returns empty = true to its caller, and leaves the
summary — including its skipped list — and the tree completely
unchanged. -/
theorem c3_excluded_directories (cfg : Config) (g k : RulesMap) (rd dn : String)
    (t : FsTree) (s : Summary) (infos : List String)
    (h : cfg.excludeDirs.contains dn = true) :
    walkDirectory cfg g k rd dn t s infos = ⟨t, s, infos, true⟩ := by
  cases t with
  | node ok files dirs =>
      unfold walkDirectory
      rw [if_pos h]

theorem c3_witness :
    walkDirectory c3Cfg [] [] "node_modules" "node_modules"
        (.node true [("a.txt", "x")] []) emptySummary [] =
      ⟨.node true [("a.txt", "x")] [], emptySummary, [], true⟩ :=
  c3_excluded_directories c3Cfg [] [] "node_modules" "node_modules"
    (.node true [("a.txt", "x")] []) emptySummary [] (by decide)

/-! ## Unfolding equations for the walker -/

theorem walkDirs_nil (cfg : Config) (g k : RulesMap) (rd : String) (s : Summary)
    (infos : List String) : walkDirs cfg g k rd [] s infos = ⟨[], s, infos, false⟩ := rfl

theorem walkDirs_cons (cfg : Config) (g k : RulesMap) (rd name : String) (sub : FsTree)
    (rest : List (String × FsTree)) (s : Summary) (infos : List String) :
    walkDirs cfg g k rd ((name, sub) :: rest) s infos =
      ⟨(name, (walkDirectory cfg g k (joinRel rd name) name sub s infos).tree) ::
          (walkDirs cfg g k rd rest
            (walkDirectory cfg g k (joinRel rd name) name sub s infos).summary
            (walkDirectory cfg g k (joinRel rd name) name sub s infos).infos).dirs,
        (walkDirs cfg g k rd rest
          (walkDirectory cfg g k (joinRel rd name) name sub s infos).summary
          (walkDirectory cfg g k (joinRel rd name) name sub s infos).infos).summary,
        (walkDirs cfg g k rd rest
          (walkDirectory cfg g k (joinRel rd name) name sub s infos).summary
          (walkDirectory cfg g k (joinRel rd name) name sub s infos).infos).infos,
        (!(walkDirectory cfg g k (joinRel rd name) name sub s infos).isEmpty) ||
          (walkDirs cfg g k rd rest
            (walkDirectory cfg g k (joinRel rd name) name sub s infos).summary
            (walkDirectory cfg g k (joinRel rd name) name sub s infos).infos).anyNonEmpty⟩ :=
  rfl

theorem walkDirectory_node (cfg : Config) (g k : RulesMap) (rd dn : String) (ok : Bool)
    (files : List (String × String)) (dirs : List (String × FsTree)) (s : Summary)
    (infos : List String) :
    walkDirectory cfg g k rd dn (.node ok files dirs) s infos =
      if cfg.excludeDirs.contains dn then ⟨.node ok files dirs, s, infos, true⟩
      else if isIgnored rd true (accumulateRules g k rd) then
        ⟨.node ok files dirs, { s with skipped := s.skipped ++ [rd] }, infos, true⟩
      else if ok then
        applyMode cfg rd (accumulateRules g k rd) files (walkDirs cfg g k rd dirs s infos)
      else
        ⟨.node ok files dirs, { s with errors := s.errors ++ [readdirErrorMsg rd] },
          infos, true⟩ :=
  rfl

theorem walkDirs_append (cfg : Config) (g k : RulesMap) (rd : String)
    (ds1 ds2 : List (String × FsTree)) (s : Summary) (infos : List String) :
    walkDirs cfg g k rd (ds1 ++ ds2) s infos =
      ⟨(walkDirs cfg g k rd ds1 s infos).dirs ++
          (walkDirs cfg g k rd ds2 (walkDirs cfg g k rd ds1 s infos).summary
            (walkDirs cfg g k rd ds1 s infos).infos).dirs,
        (walkDirs cfg g k rd ds2 (walkDirs cfg g k rd ds1 s infos).summary
          (walkDirs cfg g k rd ds1 s infos).infos).summary,
        (walkDirs cfg g k rd ds2 (walkDirs cfg g k rd ds1 s infos).summary
          (walkDirs cfg g k rd ds1 s infos).infos).infos,
        (walkDirs cfg g k rd ds1 s infos).anyNonEmpty ||
          (walkDirs cfg g k rd ds2 (walkDirs cfg g k rd ds1 s infos).summary
            (walkDirs cfg g k rd ds1 s infos).infos).anyNonEmpty⟩ := by
  induction ds1 generalizing s infos with
  | nil => simp [walkDirs_nil]
  | cons hd tl ih =>
      rcases hd with ⟨name, sub⟩
      simp only [List.cons_append, walkDirs_cons]
      rw [ih]
      simp [Bool.or_assoc]

/-! ## Claim C6: listing failures are contained -/

/-- C6: a directory whose child listing fails (and that is neither
excluded nor ignored, so the listing is attempted at all) contributes
exactly one diagnostic to the error list, is treated as an empty leaf
(empty = true, contents untouched), and the walk continues: walking any
subdirectory list decomposes sequentially, so the siblings after a failing
directory are still walked and the walk always returns a summary. -/
theorem c6_listing_failure :
    (∀ (cfg : Config) (g k : RulesMap) (rd dn : String) (files : List (String × String))
        (dirs : List (String × FsTree)) (s : Summary) (infos : List String),
        cfg.excludeDirs.contains dn = false →
        isIgnored rd true (accumulateRules g k rd) = false →
        walkDirectory cfg g k rd dn (.node false files dirs) s infos =
          ⟨.node false files dirs,
            { s with errors := s.errors ++ [readdirErrorMsg rd] }, infos, true⟩) ∧
    (∀ (cfg : Config) (g k : RulesMap) (rd : String) (ds1 ds2 : List (String × FsTree))
        (s : Summary) (infos : List String),
        walkDirs cfg g k rd (ds1 ++ ds2) s infos =
          ⟨(walkDirs cfg g k rd ds1 s infos).dirs ++
              (walkDirs cfg g k rd ds2 (walkDirs cfg g k rd ds1 s infos).summary
                (walkDirs cfg g k rd ds1 s infos).infos).dirs,
            (walkDirs cfg g k rd ds2 (walkDirs cfg g k rd ds1 s infos).summary
              (walkDirs cfg g k rd ds1 s infos).infos).summary,
            (walkDirs cfg g k rd ds2 (walkDirs cfg g k rd ds1 s infos).summary
              (walkDirs cfg g k rd ds1 s infos).infos).infos,
            (walkDirs cfg g k rd ds1 s infos).anyNonEmpty ||
              (walkDirs cfg g k rd ds2 (walkDirs cfg g k rd ds1 s infos).summary
                (walkDirs cfg g k rd ds1 s infos).infos).anyNonEmpty⟩) := by
  constructor
  · intro cfg g k rd dn files dirs s infos h1 h2
    rw [walkDirectory_node]
    rw [if_neg (by rw [h1]; simp), if_neg (by rw [h2]; simp)]
    rfl
  · intro cfg g k rd ds1 ds2 s infos
    exact walkDirs_append cfg g k rd ds1 ds2 s infos

theorem c6_witness :
    walkDirectory c3Cfg [] [] "data" "data" (.node false [] []) emptySummary [] =
      ⟨.node false [] [],
        { emptySummary with errors := emptySummary.errors ++ [readdirErrorMsg "data"] },
        [], true⟩ :=
  c6_listing_failure.1 c3Cfg [] [] "data" "data" [] [] emptySummary [] (by decide) (by decide)

/-! ## The walker returns the computed emptiness, in every mode -/

theorem computedEmptiness_node (cfg : Config) (g k : RulesMap) (rd dn : String) (ok : Bool)
    (files : List (String × String)) (dirs : List (String × FsTree)) :
    computedEmptiness cfg g k rd dn (.node ok files dirs) =
      if cfg.excludeDirs.contains dn then true
      else if isIgnored rd true (accumulateRules g k rd) then true
      else if ok then
        (visibleFiles cfg (accumulateRules g k rd) rd files).isEmpty &&
          allEmptiness cfg g k rd dirs
      else true :=
  rfl

theorem applyMode_isEmpty (cfg : Config) (rd : String) (rules : List GitignoreRule)
    (files : List (String × String)) (sub : WalkDirsResult) :
    (applyMode cfg rd rules files sub).isEmpty =
      ((visibleFiles cfg rules rd files).isEmpty && !sub.anyNonEmpty) := by
  unfold applyMode
  dsimp only
  repeat' split
  all_goals rfl

mutual

theorem walkDirectory_isEmpty (cfg : Config) (g k : RulesMap) :
    ∀ (t : FsTree) (rd dn : String) (s : Summary) (infos : List String),
      (walkDirectory cfg g k rd dn t s infos).isEmpty = computedEmptiness cfg g k rd dn t
  | .node ok files dirs, rd, dn, s, infos => by
      rw [walkDirectory_node, computedEmptiness_node]
      by_cases h1 : cfg.excludeDirs.contains dn = true
      · rw [if_pos h1, if_pos h1]
      · rw [if_neg h1, if_neg h1]
        by_cases h2 : isIgnored rd true (accumulateRules g k rd) = true
        · rw [if_pos h2, if_pos h2]
        · rw [if_neg h2, if_neg h2]
          cases ok with
          | false => rfl
          | true =>
              rw [if_pos rfl, if_pos rfl, applyMode_isEmpty,
                walkDirs_anyNonEmpty cfg g k dirs rd s infos]
              simp
  termination_by t => sizeOf t

theorem walkDirs_anyNonEmpty (cfg : Config) (g k : RulesMap) :
    ∀ (ds : List (String × FsTree)) (rd : String) (s : Summary) (infos : List String),
      (walkDirs cfg g k rd ds s infos).anyNonEmpty = !(allEmptiness cfg g k rd ds)
  | [], rd, s, infos => by
      rw [walkDirs_nil]
      rfl
  | (name, sub) :: rest, rd, s, infos => by
      rw [walkDirs_cons]
      show ((!(walkDirectory cfg g k (joinRel rd name) name sub s infos).isEmpty) || _) = _
      rw [walkDirectory_isEmpty cfg g k sub (joinRel rd name) name s infos,
        walkDirs_anyNonEmpty cfg g k rest rd
          (walkDirectory cfg g k (joinRel rd name) name sub s infos).summary
          (walkDirectory cfg g k (joinRel rd name) name sub s infos).infos]
      show _ = !(computedEmptiness cfg g k (joinRel rd name) name sub &&
        allEmptiness cfg g k rd rest)
      rw [Bool.not_and]
  termination_by ds => sizeOf ds

end

/-! ## Claim C8: check mode is read-only -/

theorem applyMode_check (cfg : Config) (h1 : cfg.clean = false) (h2 : cfg.check = true)
    (rd : String) (rules : List GitignoreRule) (files : List (String × String))
    (sub : WalkDirsResult) :
    (applyMode cfg rd rules files sub).tree = FsTree.node true files sub.dirs ∧
    (applyMode cfg rd rules files sub).summary = sub.summary := by
  unfold applyMode
  dsimp only
  rw [if_neg (by rw [h1]; simp), if_pos h2]
  repeat' split
  all_goals exact ⟨rfl, rfl⟩

mutual

theorem walkDirectory_check (cfg : Config) (h1 : cfg.clean = false) (h2 : cfg.check = true)
    (g k : RulesMap) :
    ∀ (t : FsTree) (rd dn : String) (s : Summary) (infos : List String),
      (walkDirectory cfg g k rd dn t s infos).tree = t ∧
      (walkDirectory cfg g k rd dn t s infos).summary.created = s.created ∧
      (walkDirectory cfg g k rd dn t s infos).summary.removed = s.removed
  | .node ok files dirs, rd, dn, s, infos => by
      rw [walkDirectory_node]
      by_cases he : cfg.excludeDirs.contains dn = true
      · rw [if_pos he]
        exact ⟨rfl, rfl, rfl⟩
      · rw [if_neg he]
        by_cases hi : isIgnored rd true (accumulateRules g k rd) = true
        · rw [if_pos hi]
          exact ⟨rfl, rfl, rfl⟩
        · rw [if_neg hi]
          cases ok with
          | false => exact ⟨rfl, rfl, rfl⟩
          | true =>
              rw [if_pos rfl]
              obtain ⟨hd, hs, hc⟩ := walkDirs_check cfg h1 h2 g k dirs rd s infos
              obtain ⟨ht, hsum⟩ := applyMode_check cfg h1 h2 rd (accumulateRules g k rd)
                files (walkDirs cfg g k rd dirs s infos)
              refine ⟨?_, ?_, ?_⟩
              · rw [ht, hd]
              · rw [hsum, hs]
              · rw [hsum, hc]
  termination_by t => sizeOf t

theorem walkDirs_check (cfg : Config) (h1 : cfg.clean = false) (h2 : cfg.check = true)
    (g k : RulesMap) :
    ∀ (ds : List (String × FsTree)) (rd : String) (s : Summary) (infos : List String),
      (walkDirs cfg g k rd ds s infos).dirs = ds ∧
      (walkDirs cfg g k rd ds s infos).summary.created = s.created ∧
      (walkDirs cfg g k rd ds s infos).summary.removed = s.removed
  | [], rd, s, infos => by
      rw [walkDirs_nil]
      exact ⟨rfl, rfl, rfl⟩
  | (name, sub) :: rest, rd, s, infos => by
      rw [walkDirs_cons]
      obtain ⟨wt, wc, wr⟩ := walkDirectory_check cfg h1 h2 g k sub (joinRel rd name) name s infos
      obtain ⟨rt, rc, rr⟩ := walkDirs_check cfg h1 h2 g k rest rd
        (walkDirectory cfg g k (joinRel rd name) name sub s infos).summary
        (walkDirectory cfg g k (joinRel rd name) name sub s infos).infos
      refine ⟨?_, ?_, ?_⟩
      · show (name, (walkDirectory cfg g k (joinRel rd name) name sub s infos).tree) ::
          (walkDirs cfg g k rd rest _ _).dirs = (name, sub) :: rest
        rw [wt, rt]
      · show (walkDirs cfg g k rd rest _ _).summary.created = s.created
        rw [rc, wc]
      · show (walkDirs cfg g k rd rest _ _).summary.removed = s.removed
        rw [rr, wr]
  termination_by ds => sizeOf ds

end

/-- C8: in check mode (with clean mode off) a full walk changes no file in
the tree, its summary has an empty created list and an empty removed list,
and every directory still returns its computed emptiness to its caller. -/
theorem c8_check_mode_read_only (cfg : Config) (rootName : String) (t : FsTree)
    (h1 : cfg.clean = false) (h2 : cfg.check = true) :
    (runWalk cfg rootName t).tree = t ∧
    (runWalk cfg rootName t).summary.created = [] ∧
    (runWalk cfg rootName t).summary.removed = [] ∧
    (runWalk cfg rootName t).isEmpty =
      computedEmptiness cfg (loadAllIgnoreRules cfg t).1 (loadAllIgnoreRules cfg t).2
        "." rootName t := by
  unfold runWalk
  obtain ⟨ht, hc, hr⟩ := walkDirectory_check cfg h1 h2
    (loadAllIgnoreRules cfg t).1 (loadAllIgnoreRules cfg t).2 t "." rootName emptySummary []
  exact ⟨ht, hc, hr,
    walkDirectory_isEmpty cfg (loadAllIgnoreRules cfg t).1 (loadAllIgnoreRules cfg t).2 t
      "." rootName emptySummary []⟩

/-- Concrete configuration in check mode for the C8 witness. -/
def c8Cfg : Config := ⟨false, "", false, true, [".git"], ".gitkeep", true⟩

/-- Concrete tree for the C8 witness: an empty directory `logs` without a
marker and a non-empty root. -/
def c8Tree : FsTree := .node true [("readme.md", "hi")] [("logs", .node true [] [])]

theorem c8_witness :
    (runWalk c8Cfg "proj" c8Tree).tree = c8Tree ∧
    (runWalk c8Cfg "proj" c8Tree).summary.created = [] ∧
    (runWalk c8Cfg "proj" c8Tree).summary.removed = [] ∧
    (runWalk c8Cfg "proj" c8Tree).isEmpty =
      computedEmptiness c8Cfg (loadAllIgnoreRules c8Cfg c8Tree).1
        (loadAllIgnoreRules c8Cfg c8Tree).2 "." "proj" c8Tree :=
  c8_check_mode_read_only c8Cfg "proj" c8Tree (by decide) (by decide)

/-! ## Claim C10: clean takes precedence over check

`walkDirectory` tests `config.clean` (line 592) before `config.check`
(line 600), so with both flags set every directory goes through the clean
branch: the walk result does not depend on the check flag at all, no check
diagnostic is ever emitted, nothing is ever created, and a present marker
is removed (scheduled via `removeGitkeep`) regardless of emptiness. -/

theorem removeGitkeep_created (cfg : Config) (rd : String) (files : List (String × String))
    (s : Summary) : (removeGitkeep cfg rd files s).2.created = s.created := by
  unfold removeGitkeep
  split
  · rfl
  · rfl

theorem applyMode_clean_check_irrelevant (dry : Bool) (cont : String) (ch : Bool)
    (ex : List String) (nm : String) (resp : Bool) (rd : String)
    (rules : List GitignoreRule) (files : List (String × String)) (sub : WalkDirsResult) :
    applyMode ⟨dry, cont, true, ch, ex, nm, resp⟩ rd rules files sub =
      applyMode ⟨dry, cont, true, false, ex, nm, resp⟩ rd rules files sub :=
  rfl

theorem applyMode_clean (cfg : Config) (hc : cfg.clean = true) (rd : String)
    (rules : List GitignoreRule) (files : List (String × String)) (sub : WalkDirsResult) :
    (applyMode cfg rd rules files sub).infos = sub.infos ∧
    (applyMode cfg rd rules files sub).summary.created = sub.summary.created := by
  unfold applyMode
  dsimp only
  rw [if_pos hc]
  split
  · exact ⟨rfl, removeGitkeep_created cfg rd files sub.summary⟩
  · exact ⟨rfl, rfl⟩

mutual

theorem walkDirectory_clean_check_irrelevant (dry : Bool) (cont : String) (ch : Bool)
    (ex : List String) (nm : String) (resp : Bool) (g k : RulesMap) :
    ∀ (t : FsTree) (rd dn : String) (s : Summary) (infos : List String),
      walkDirectory ⟨dry, cont, true, ch, ex, nm, resp⟩ g k rd dn t s infos =
        walkDirectory ⟨dry, cont, true, false, ex, nm, resp⟩ g k rd dn t s infos
  | .node ok files dirs, rd, dn, s, infos => by
      rw [walkDirectory_node, walkDirectory_node]
      by_cases he : ex.contains dn = true
      · rw [if_pos he, if_pos he]
      · rw [if_neg he, if_neg he]
        by_cases hi : isIgnored rd true (accumulateRules g k rd) = true
        · rw [if_pos hi, if_pos hi]
        · rw [if_neg hi, if_neg hi]
          cases ok with
          | false => rfl
          | true =>
              rw [if_pos rfl, if_pos rfl,
                walkDirs_clean_check_irrelevant dry cont ch ex nm resp g k dirs rd s infos,
                applyMode_clean_check_irrelevant]
  termination_by t => sizeOf t

theorem walkDirs_clean_check_irrelevant (dry : Bool) (cont : String) (ch : Bool)
    (ex : List String) (nm : String) (resp : Bool) (g k : RulesMap) :
    ∀ (ds : List (String × FsTree)) (rd : String) (s : Summary) (infos : List String),
      walkDirs ⟨dry, cont, true, ch, ex, nm, resp⟩ g k rd ds s infos =
        walkDirs ⟨dry, cont, true, false, ex, nm, resp⟩ g k rd ds s infos
  | [], rd, s, infos => rfl
  | (name, sub) :: rest, rd, s, infos => by
      rw [walkDirs_cons, walkDirs_cons,
        walkDirectory_clean_check_irrelevant dry cont ch ex nm resp g k sub
          (joinRel rd name) name s infos,
        walkDirs_clean_check_irrelevant dry cont ch ex nm resp g k rest rd
          (walkDirectory ⟨dry, cont, true, false, ex, nm, resp⟩ g k
            (joinRel rd name) name sub s infos).summary
          (walkDirectory ⟨dry, cont, true, false, ex, nm, resp⟩ g k
            (joinRel rd name) name sub s infos).infos]
  termination_by ds => sizeOf ds

end

mutual

theorem walkDirectory_clean_quiet (cfg : Config) (hc : cfg.clean = true) (g k : RulesMap) :
    ∀ (t : FsTree) (rd dn : String) (s : Summary) (infos : List String),
      (walkDirectory cfg g k rd dn t s infos).infos = infos ∧
      (walkDirectory cfg g k rd dn t s infos).summary.created = s.created
  | .node ok files dirs, rd, dn, s, infos => by
      rw [walkDirectory_node]
      by_cases he : cfg.excludeDirs.contains dn = true
      · rw [if_pos he]
        exact ⟨rfl, rfl⟩
      · rw [if_neg he]
        by_cases hi : isIgnored rd true (accumulateRules g k rd) = true
        · rw [if_pos hi]
          exact ⟨rfl, rfl⟩
        · rw [if_neg hi]
          cases ok with
          | false => exact ⟨rfl, rfl⟩
          | true =>
              rw [if_pos rfl]
              obtain ⟨si, sc⟩ := walkDirs_clean_quiet cfg hc g k dirs rd s infos
              obtain ⟨ai, ac⟩ := applyMode_clean cfg hc rd (accumulateRules g k rd) files
                (walkDirs cfg g k rd dirs s infos)
              exact ⟨ai.trans si, ac.trans sc⟩
  termination_by t => sizeOf t

theorem walkDirs_clean_quiet (cfg : Config) (hc : cfg.clean = true) (g k : RulesMap) :
    ∀ (ds : List (String × FsTree)) (rd : String) (s : Summary) (infos : List String),
      (walkDirs cfg g k rd ds s infos).infos = infos ∧
      (walkDirs cfg g k rd ds s infos).summary.created = s.created
  | [], rd, s, infos => ⟨rfl, rfl⟩
  | (name, sub) :: rest, rd, s, infos => by
      rw [walkDirs_cons]
      obtain ⟨wi, wc⟩ := walkDirectory_clean_quiet cfg hc g k sub (joinRel rd name) name s infos
      obtain ⟨ri, rc⟩ := walkDirs_clean_quiet cfg hc g k rest rd
        (walkDirectory cfg g k (joinRel rd name) name sub s infos).summary
        (walkDirectory cfg g k (joinRel rd name) name sub s infos).infos
      exact ⟨ri.trans wi, rc.trans wc⟩
  termination_by ds => sizeOf ds

end

/-- C10: with both the clean flag and the check flag set, every directory
is processed exactly as in clean mode: the walk result is the same as with
the check flag cleared, no check diagnostics are emitted, no marker is
ever created, and an evaluated directory with a present marker has its
marker scheduled for removal regardless of emptiness. -/
theorem c10_clean_takes_precedence :
    (∀ (cfg : Config) (g k : RulesMap) (t : FsTree) (rd dn : String) (s : Summary)
        (infos : List String), cfg.clean = true → cfg.check = true →
        walkDirectory cfg g k rd dn t s infos =
          walkDirectory { cfg with check := false } g k rd dn t s infos ∧
        (walkDirectory cfg g k rd dn t s infos).infos = infos ∧
        (walkDirectory cfg g k rd dn t s infos).summary.created = s.created) ∧
    (∀ (cfg : Config) (g k : RulesMap) (files : List (String × String))
        (dirs : List (String × FsTree)) (rd dn : String) (s : Summary)
        (infos : List String),
        cfg.clean = true → cfg.check = true → cfg.dryRun = false →
        cfg.excludeDirs.contains dn = false →
        isIgnored rd true (accumulateRules g k rd) = false →
        (files.any fun f => f.1 == cfg.gitkeepName) = true →
        joinRel rd cfg.gitkeepName ∈
          (walkDirectory cfg g k rd dn (.node true files dirs) s infos).summary.removed) := by
  constructor
  · intro cfg g k t rd dn s infos hclean hcheck
    obtain ⟨dry, cont, cl, ch, ex, nm, resp⟩ := cfg
    simp only at hclean hcheck
    subst hclean
    subst hcheck
    refine ⟨?_, walkDirectory_clean_quiet _ rfl g k t rd dn s infos⟩
    exact walkDirectory_clean_check_irrelevant dry cont true ex nm resp g k t rd dn s infos
  · intro cfg g k files dirs rd dn s infos hclean hcheck hdry hex hig hmarker
    rw [walkDirectory_node, if_neg (by rw [hex]; simp), if_neg (by rw [hig]; simp),
      if_pos rfl]
    unfold applyMode
    dsimp only
    rw [if_pos hclean, if_pos hmarker]
    show ((removeGitkeep cfg rd files _).2).removed.Mem _
    unfold removeGitkeep
    rw [if_neg (by rw [hdry]; simp)]
    exact List.mem_append_right _ (List.mem_singleton.mpr rfl)

/-- Concrete configuration with both clean and check set for the C10
witness. -/
def c10Cfg : Config := ⟨false, "", true, true, [".git"], ".gitkeep", true⟩

theorem c10_witness :
    walkDirectory c10Cfg [] [] "logs" "logs"
        (.node true [(".gitkeep", ""), ("app.txt", "x")] []) emptySummary [] =
      walkDirectory { c10Cfg with check := false } [] [] "logs" "logs"
        (.node true [(".gitkeep", ""), ("app.txt", "x")] []) emptySummary [] ∧
    (walkDirectory c10Cfg [] [] "logs" "logs"
        (.node true [(".gitkeep", ""), ("app.txt", "x")] []) emptySummary []).infos = [] ∧
    (walkDirectory c10Cfg [] [] "logs" "logs"
        (.node true [(".gitkeep", ""), ("app.txt", "x")] []) emptySummary
        []).summary.created = [] ∧
    joinRel "logs" c10Cfg.gitkeepName ∈
      (walkDirectory c10Cfg [] [] "logs" "logs"
        (.node true [(".gitkeep", ""), ("app.txt", "x")] []) emptySummary
        []).summary.removed := by
  obtain ⟨h1, h2⟩ := c10_clean_takes_precedence
  obtain ⟨ha, hb, hc⟩ := h1 c10Cfg [] [] (.node true [(".gitkeep", ""), ("app.txt", "x")] [])
    "logs" "logs" emptySummary [] (by decide) (by decide)
  exact ⟨ha, hb, hc,
    h2 c10Cfg [] [] [(".gitkeep", ""), ("app.txt", "x")] [] "logs" "logs" emptySummary []
      (by decide) (by decide) (by decide) (by decide) (by decide) (by decide)⟩

/-! ## Claim C9: idempotence of normal mode

A normal-mode walk only ever writes or deletes files named
`config.gitkeepName`.  When that name differs from both ignore-file names,
the rule tables loaded before a second run are identical to those of the
first run, and the second run finds every evaluated directory's marker
presence equal to its (unchanged) emptiness, so it creates and removes
nothing.  When the marker name IS an ignore-file name the property fails:
the markers created by the first run become rules of the second run. -/

theorem findFile_append_ne (files : List (String × String)) (m c fname : String)
    (h : m ≠ fname) : findFile (files ++ [(m, c)]) fname = findFile files fname := by
  induction files with
  | nil => simp [findFile, h]
  | cons f rest ih =>
      rcases f with ⟨n, v⟩
      rw [List.cons_append]
      simp only [findFile]
      by_cases hn : n = fname
      · rw [if_pos hn, if_pos hn]
      · rw [if_neg hn, if_neg hn]
        exact ih

theorem findFile_filter_marker (files : List (String × String)) (m fname : String)
    (h : m ≠ fname) :
    findFile (files.filter fun f => !(f.1 == m)) fname = findFile files fname := by
  induction files with
  | nil => rfl
  | cons f rest ih =>
      rcases f with ⟨n, v⟩
      rw [List.filter_cons]
      dsimp only
      by_cases hn : n = fname
      · subst hn
        have hnm : (n == m) = false := by
          simp only [beq_eq_false_iff_ne]
          exact fun he => h he.symm
        rw [hnm]
        simp only [Bool.not_false, if_pos, findFile, if_pos rfl]
      · by_cases hk : (n == m) = true
        · rw [hk]
          simp only [Bool.not_true, Bool.false_eq_true, if_neg, not_false_iff]
          rw [ih]
          simp only [findFile]
          rw [if_neg hn]
        · have hkf : (n == m) = false := by
            revert hk
            cases (n == m) <;> simp
          rw [hkf]
          simp only [Bool.not_false, if_pos, findFile]
          rw [if_neg hn, if_neg hn]
          exact ih

theorem loadIgnoreRulesFrom_append_marker (files : List (String × String))
    (rd fname m c : String) (h : m ≠ fname) :
    loadIgnoreRulesFrom (files ++ [(m, c)]) rd fname = loadIgnoreRulesFrom files rd fname := by
  unfold loadIgnoreRulesFrom
  rw [findFile_append_ne files m c fname h]

theorem loadIgnoreRulesFrom_filter_marker (files : List (String × String))
    (rd fname m : String) (h : m ≠ fname) :
    loadIgnoreRulesFrom (files.filter fun f => !(f.1 == m)) rd fname =
      loadIgnoreRulesFrom files rd fname := by
  unfold loadIgnoreRulesFrom
  rw [findFile_filter_marker files m fname h]

theorem visibleFiles_append_marker (cfg : Config) (rules : List GitignoreRule)
    (rd : String) (files : List (String × String)) (c : String) :
    visibleFiles cfg rules rd (files ++ [(cfg.gitkeepName, c)]) =
      visibleFiles cfg rules rd files := by
  unfold visibleFiles
  rw [List.filter_append]
  simp

theorem visibleFiles_filter_marker (cfg : Config) (rules : List GitignoreRule)
    (rd : String) (files : List (String × String)) :
    visibleFiles cfg rules rd (files.filter fun f => !(f.1 == cfg.gitkeepName)) =
      visibleFiles cfg rules rd files := by
  unfold visibleFiles
  rw [List.filter_filter]
  apply List.filter_congr
  intro f _
  by_cases hm : (f.1 == cfg.gitkeepName) = true
  · rw [hm]
    simp
  · have hf : (f.1 == cfg.gitkeepName) = false := by
      revert hm
      cases (f.1 == cfg.gitkeepName) <;> simp
    rw [hf]
    simp

theorem any_marker_append (files : List (String × String)) (m c : String) :
    ((files ++ [(m, c)]).any fun f => f.1 == m) = true := by
  rw [List.any_append]
  simp

theorem any_marker_filter (files : List (String × String)) (m : String) :
    ((files.filter fun f => !(f.1 == m)).any fun f => f.1 == m) = false := by
  induction files with
  | nil => rfl
  | cons f rest ih =>
      rw [List.filter_cons]
      by_cases hm : (f.1 == m) = true
      · rw [hm]
        simp only [Bool.not_true, Bool.false_eq_true, if_neg, not_false_iff]
        exact ih
      · have hf : (f.1 == m) = false := by
          revert hm
          cases (f.1 == m) <;> simp
        rw [hf]
        simp only [Bool.not_false, if_pos, List.any_cons, hf, Bool.false_or]
        exact ih

/-! ## The four outcomes of a normal-mode directory evaluation -/

theorem applyMode_normal_create (cfg : Config) (h1 : cfg.clean = false)
    (h2 : cfg.check = false) (h3 : cfg.dryRun = false) (rd : String)
    (rules : List GitignoreRule) (files : List (String × String)) (sub : WalkDirsResult)
    (hE : ((visibleFiles cfg rules rd files).isEmpty && !sub.anyNonEmpty) = true)
    (hG : (files.any fun f => f.1 == cfg.gitkeepName) = false) :
    applyMode cfg rd rules files sub =
      ⟨.node true (files ++ [(cfg.gitkeepName, cfg.content)]) sub.dirs,
        { sub.summary with created := sub.summary.created ++ [joinRel rd cfg.gitkeepName] },
        sub.infos, true⟩ := by
  unfold applyMode
  dsimp only
  rw [hE, hG, if_neg (by rw [h1]; simp), if_neg (by rw [h2]; simp), if_pos rfl]
  simp only [Bool.not_false, if_pos]
  unfold createGitkeep
  rw [if_neg (by rw [h3]; simp)]

theorem applyMode_normal_keep_empty (cfg : Config) (h1 : cfg.clean = false)
    (h2 : cfg.check = false) (rd : String) (rules : List GitignoreRule)
    (files : List (String × String)) (sub : WalkDirsResult)
    (hE : ((visibleFiles cfg rules rd files).isEmpty && !sub.anyNonEmpty) = true)
    (hG : (files.any fun f => f.1 == cfg.gitkeepName) = true) :
    applyMode cfg rd rules files sub =
      ⟨.node true files sub.dirs, sub.summary, sub.infos, true⟩ := by
  unfold applyMode
  dsimp only
  rw [hE, hG, if_neg (by rw [h1]; simp), if_neg (by rw [h2]; simp), if_pos rfl]
  simp

theorem applyMode_normal_remove (cfg : Config) (h1 : cfg.clean = false)
    (h2 : cfg.check = false) (h3 : cfg.dryRun = false) (rd : String)
    (rules : List GitignoreRule) (files : List (String × String)) (sub : WalkDirsResult)
    (hE : ((visibleFiles cfg rules rd files).isEmpty && !sub.anyNonEmpty) = false)
    (hG : (files.any fun f => f.1 == cfg.gitkeepName) = true) :
    applyMode cfg rd rules files sub =
      ⟨.node true (files.filter fun f => !(f.1 == cfg.gitkeepName)) sub.dirs,
        { sub.summary with removed := sub.summary.removed ++ [joinRel rd cfg.gitkeepName] },
        sub.infos, false⟩ := by
  unfold applyMode
  dsimp only
  rw [hE, hG, if_neg (by rw [h1]; simp), if_neg (by rw [h2]; simp),
    if_neg (by simp), if_pos rfl]
  unfold removeGitkeep
  rw [if_neg (by rw [h3]; simp)]

theorem applyMode_normal_keep_nonempty (cfg : Config) (h1 : cfg.clean = false)
    (h2 : cfg.check = false) (rd : String) (rules : List GitignoreRule)
    (files : List (String × String)) (sub : WalkDirsResult)
    (hE : ((visibleFiles cfg rules rd files).isEmpty && !sub.anyNonEmpty) = false)
    (hG : (files.any fun f => f.1 == cfg.gitkeepName) = false) :
    applyMode cfg rd rules files sub =
      ⟨.node true files sub.dirs, sub.summary, sub.infos, false⟩ := by
  unfold applyMode
  dsimp only
  rw [hE, hG, if_neg (by rw [h1]; simp), if_neg (by rw [h2]; simp),
    if_neg (by simp)]
  simp

/-! ## The loader never sees the walker's marker writes -/

theorem loadDirs_nil (cfg : Config) (rd : String) (g k : RulesMap) :
    loadDirs cfg rd [] g k = (g, k) := rfl

theorem loadDirs_cons (cfg : Config) (rd name : String) (sub : FsTree)
    (rest : List (String × FsTree)) (g k : RulesMap) :
    loadDirs cfg rd ((name, sub) :: rest) g k =
      if cfg.excludeDirs.contains name then loadDirs cfg rd rest g k
      else
        loadDirs cfg rd rest (recursiveLoad cfg (joinRel rd name) sub g k).1
          (recursiveLoad cfg (joinRel rd name) sub g k).2 :=
  rfl

theorem recursiveLoad_congr (cfg : Config) (rd : String) (ok : Bool)
    (files files2 : List (String × String)) (dirs dirs2 : List (String × FsTree))
    (g k : RulesMap)
    (hg : loadIgnoreRulesFrom files2 rd gitignoreFilename =
      loadIgnoreRulesFrom files rd gitignoreFilename)
    (hk : loadIgnoreRulesFrom files2 rd gitkeepIgnoreFilename =
      loadIgnoreRulesFrom files rd gitkeepIgnoreFilename)
    (hd : ∀ g0 k0, loadDirs cfg rd dirs2 g0 k0 = loadDirs cfg rd dirs g0 k0) :
    recursiveLoad cfg rd (.node ok files2 dirs2) g k =
      recursiveLoad cfg rd (.node ok files dirs) g k := by
  unfold recursiveLoad
  dsimp only
  rw [hg, hk]
  cases ok
  · rfl
  · exact hd _ _

theorem applyMode_tree_cases (cfg : Config) (rd : String) (rules : List GitignoreRule)
    (files : List (String × String)) (sub : WalkDirsResult) :
    (applyMode cfg rd rules files sub).tree = FsTree.node true files sub.dirs ∨
    (applyMode cfg rd rules files sub).tree =
      FsTree.node true (files ++ [(cfg.gitkeepName, cfg.content)]) sub.dirs ∨
    (applyMode cfg rd rules files sub).tree =
      FsTree.node true (files.filter fun f => !(f.1 == cfg.gitkeepName)) sub.dirs := by
  unfold applyMode createGitkeep removeGitkeep
  dsimp only
  repeat' split
  all_goals first
    | exact Or.inl rfl
    | exact Or.inr (Or.inl rfl)
    | exact Or.inr (Or.inr rfl)

mutual

theorem recursiveLoad_after_walk (cfg : Config)
    (hm1 : cfg.gitkeepName ≠ gitignoreFilename)
    (hm2 : cfg.gitkeepName ≠ gitkeepIgnoreFilename) (g k : RulesMap) :
    ∀ (t : FsTree) (rdW dnW : String) (s : Summary) (infos : List String) (rdL : String)
      (g0 k0 : RulesMap),
      recursiveLoad cfg rdL (walkDirectory cfg g k rdW dnW t s infos).tree g0 k0 =
        recursiveLoad cfg rdL t g0 k0
  | .node ok files dirs, rdW, dnW, s, infos, rdL, g0, k0 => by
      rw [walkDirectory_node]
      by_cases he : cfg.excludeDirs.contains dnW = true
      · rw [if_pos he]
      · rw [if_neg he]
        by_cases hi : isIgnored rdW true (accumulateRules g k rdW) = true
        · rw [if_pos hi]
        · rw [if_neg hi]
          cases ok with
          | false => rfl
          | true =>
              rw [if_pos rfl]
              rcases applyMode_tree_cases cfg rdW (accumulateRules g k rdW) files
                (walkDirs cfg g k rdW dirs s infos) with hc | hc | hc <;> rw [hc]
              · exact recursiveLoad_congr cfg rdL true files files dirs
                  (walkDirs cfg g k rdW dirs s infos).dirs g0 k0 rfl rfl
                  (fun ga ka => loadDirs_after_walk cfg hm1 hm2 g k dirs rdW s infos rdL ga ka)
              · exact recursiveLoad_congr cfg rdL true files
                  (files ++ [(cfg.gitkeepName, cfg.content)]) dirs
                  (walkDirs cfg g k rdW dirs s infos).dirs g0 k0
                  (loadIgnoreRulesFrom_append_marker files rdL gitignoreFilename
                    cfg.gitkeepName cfg.content hm1)
                  (loadIgnoreRulesFrom_append_marker files rdL gitkeepIgnoreFilename
                    cfg.gitkeepName cfg.content hm2)
                  (fun ga ka => loadDirs_after_walk cfg hm1 hm2 g k dirs rdW s infos rdL ga ka)
              · exact recursiveLoad_congr cfg rdL true files
                  (files.filter fun f => !(f.1 == cfg.gitkeepName)) dirs
                  (walkDirs cfg g k rdW dirs s infos).dirs g0 k0
                  (loadIgnoreRulesFrom_filter_marker files rdL gitignoreFilename
                    cfg.gitkeepName hm1)
                  (loadIgnoreRulesFrom_filter_marker files rdL gitkeepIgnoreFilename
                    cfg.gitkeepName hm2)
                  (fun ga ka => loadDirs_after_walk cfg hm1 hm2 g k dirs rdW s infos rdL ga ka)
  termination_by t => sizeOf t

theorem loadDirs_after_walk (cfg : Config)
    (hm1 : cfg.gitkeepName ≠ gitignoreFilename)
    (hm2 : cfg.gitkeepName ≠ gitkeepIgnoreFilename) (g k : RulesMap) :
    ∀ (ds : List (String × FsTree)) (rdW : String) (s : Summary) (infos : List String)
      (rdL : String) (g0 k0 : RulesMap),
      loadDirs cfg rdL (walkDirs cfg g k rdW ds s infos).dirs g0 k0 =
        loadDirs cfg rdL ds g0 k0
  | [], rdW, s, infos, rdL, g0, k0 => by
      rw [walkDirs_nil]
  | (name, sub) :: rest, rdW, s, infos, rdL, g0, k0 => by
      rw [walkDirs_cons]
      show loadDirs cfg rdL
        ((name, (walkDirectory cfg g k (joinRel rdW name) name sub s infos).tree) ::
          (walkDirs cfg g k rdW rest _ _).dirs) g0 k0 = _
      rw [loadDirs_cons, loadDirs_cons]
      by_cases hex : cfg.excludeDirs.contains name = true
      · rw [if_pos hex, if_pos hex]
        exact loadDirs_after_walk cfg hm1 hm2 g k rest rdW
          (walkDirectory cfg g k (joinRel rdW name) name sub s infos).summary
          (walkDirectory cfg g k (joinRel rdW name) name sub s infos).infos rdL g0 k0
      · rw [if_neg hex, if_neg hex,
          recursiveLoad_after_walk cfg hm1 hm2 g k sub (joinRel rdW name) name s infos
            (joinRel rdL name) g0 k0]
        exact loadDirs_after_walk cfg hm1 hm2 g k rest rdW
          (walkDirectory cfg g k (joinRel rdW name) name sub s infos).summary
          (walkDirectory cfg g k (joinRel rdW name) name sub s infos).infos rdL
          (recursiveLoad cfg (joinRel rdL name) sub g0 k0).1
          (recursiveLoad cfg (joinRel rdL name) sub g0 k0).2
  termination_by ds => sizeOf ds

end

theorem loadAll_after_walk (cfg : Config)
    (hm1 : cfg.gitkeepName ≠ gitignoreFilename)
    (hm2 : cfg.gitkeepName ≠ gitkeepIgnoreFilename) (g k : RulesMap) (rd dn : String)
    (t : FsTree) (s : Summary) (infos : List String) :
    loadAllIgnoreRules cfg (walkDirectory cfg g k rd dn t s infos).tree =
      loadAllIgnoreRules cfg t := by
  unfold loadAllIgnoreRules
  exact recursiveLoad_after_walk cfg hm1 hm2 g k t rd dn s infos "." [] []

/-! ## Branch equations of the walker -/

theorem walkDirectory_excluded_eq (cfg : Config) (g k : RulesMap) (rd dn : String)
    (ok : Bool) (files : List (String × String)) (dirs : List (String × FsTree))
    (s : Summary) (infos : List String) (he : cfg.excludeDirs.contains dn = true) :
    walkDirectory cfg g k rd dn (.node ok files dirs) s infos =
      ⟨.node ok files dirs, s, infos, true⟩ := by
  rw [walkDirectory_node, if_pos he]

theorem walkDirectory_ignored_eq (cfg : Config) (g k : RulesMap) (rd dn : String)
    (ok : Bool) (files : List (String × String)) (dirs : List (String × FsTree))
    (s : Summary) (infos : List String) (he : cfg.excludeDirs.contains dn = false)
    (hi : isIgnored rd true (accumulateRules g k rd) = true) :
    walkDirectory cfg g k rd dn (.node ok files dirs) s infos =
      ⟨.node ok files dirs, { s with skipped := s.skipped ++ [rd] }, infos, true⟩ := by
  rw [walkDirectory_node, if_neg (by rw [he]; simp), if_pos hi]

theorem walkDirectory_unlistable_eq (cfg : Config) (g k : RulesMap) (rd dn : String)
    (files : List (String × String)) (dirs : List (String × FsTree))
    (s : Summary) (infos : List String) (he : cfg.excludeDirs.contains dn = false)
    (hi : isIgnored rd true (accumulateRules g k rd) = false) :
    walkDirectory cfg g k rd dn (.node false files dirs) s infos =
      ⟨.node false files dirs, { s with errors := s.errors ++ [readdirErrorMsg rd] },
        infos, true⟩ := by
  rw [walkDirectory_node, if_neg (by rw [he]; simp), if_neg (by rw [hi]; simp)]
  rfl

theorem walkDirectory_evaluated_eq (cfg : Config) (g k : RulesMap) (rd dn : String)
    (files : List (String × String)) (dirs : List (String × FsTree))
    (s : Summary) (infos : List String) (he : cfg.excludeDirs.contains dn = false)
    (hi : isIgnored rd true (accumulateRules g k rd) = false) :
    walkDirectory cfg g k rd dn (.node true files dirs) s infos =
      applyMode cfg rd (accumulateRules g k rd) files (walkDirs cfg g k rd dirs s infos) := by
  rw [walkDirectory_node, if_neg (by rw [he]; simp), if_neg (by rw [hi]; simp), if_pos rfl]

/-! ## A second normal-mode walk changes nothing

After a normal-mode evaluation of a listable directory, the marker is
present exactly when the directory was computed empty; a second walk (with
the same rule tables) computes the same emptiness, so it takes no
action anywhere. -/

mutual

theorem walkDirectory_second_run (cfg : Config) (h1 : cfg.clean = false)
    (h2 : cfg.check = false) (h3 : cfg.dryRun = false) (g k : RulesMap) :
    ∀ (t : FsTree) (rd dn : String) (s1 : Summary) (i1 : List String) (s2 : Summary)
      (i2 : List String),
      (walkDirectory cfg g k rd dn (walkDirectory cfg g k rd dn t s1 i1).tree s2 i2).tree =
        (walkDirectory cfg g k rd dn t s1 i1).tree ∧
      (walkDirectory cfg g k rd dn (walkDirectory cfg g k rd dn t s1 i1).tree s2
          i2).summary.created = s2.created ∧
      (walkDirectory cfg g k rd dn (walkDirectory cfg g k rd dn t s1 i1).tree s2
          i2).summary.removed = s2.removed ∧
      (walkDirectory cfg g k rd dn (walkDirectory cfg g k rd dn t s1 i1).tree s2
          i2).isEmpty = (walkDirectory cfg g k rd dn t s1 i1).isEmpty
  | .node ok files dirs, rd, dn, s1, i1, s2, i2 => by
      by_cases he : cfg.excludeDirs.contains dn = true
      · rw [walkDirectory_excluded_eq cfg g k rd dn ok files dirs s1 i1 he]
        rw [walkDirectory_excluded_eq cfg g k rd dn ok files dirs s2 i2 he]
        exact ⟨rfl, rfl, rfl, rfl⟩
      · have he2 : cfg.excludeDirs.contains dn = false := by
          revert he
          cases cfg.excludeDirs.contains dn <;> simp
        by_cases hi : isIgnored rd true (accumulateRules g k rd) = true
        · rw [walkDirectory_ignored_eq cfg g k rd dn ok files dirs s1 i1 he2 hi]
          rw [walkDirectory_ignored_eq cfg g k rd dn ok files dirs s2 i2 he2 hi]
          exact ⟨rfl, rfl, rfl, rfl⟩
        · have hi2 : isIgnored rd true (accumulateRules g k rd) = false := by
            revert hi
            cases isIgnored rd true (accumulateRules g k rd) <;> simp
          cases ok with
          | false =>
              rw [walkDirectory_unlistable_eq cfg g k rd dn files dirs s1 i1 he2 hi2]
              rw [walkDirectory_unlistable_eq cfg g k rd dn files dirs s2 i2 he2 hi2]
              exact ⟨rfl, rfl, rfl, rfl⟩
          | true =>
              rw [walkDirectory_evaluated_eq cfg g k rd dn files dirs s1 i1 he2 hi2]
              obtain ⟨jd, jc, jr, ja⟩ :=
                walkDirs_second_run cfg h1 h2 h3 g k dirs rd s1 i1 s2 i2
              by_cases hE : ((visibleFiles cfg (accumulateRules g k rd) rd files).isEmpty &&
                  !(walkDirs cfg g k rd dirs s1 i1).anyNonEmpty) = true
              · by_cases hG : (files.any fun f => f.1 == cfg.gitkeepName) = true
                · rw [applyMode_normal_keep_empty cfg h1 h2 rd (accumulateRules g k rd)
                    files (walkDirs cfg g k rd dirs s1 i1) hE hG]
                  rw [walkDirectory_evaluated_eq cfg g k rd dn files
                    (walkDirs cfg g k rd dirs s1 i1).dirs s2 i2 he2 hi2]
                  have hE2 : ((visibleFiles cfg (accumulateRules g k rd) rd files).isEmpty &&
                      !(walkDirs cfg g k rd
                        (walkDirs cfg g k rd dirs s1 i1).dirs s2 i2).anyNonEmpty) = true := by
                    rw [ja]
                    exact hE
                  rw [applyMode_normal_keep_empty cfg h1 h2 rd (accumulateRules g k rd)
                    files (walkDirs cfg g k rd (walkDirs cfg g k rd dirs s1 i1).dirs s2 i2)
                    hE2 hG]
                  exact ⟨by rw [jd], jc, jr, rfl⟩
                · have hG2 : (files.any fun f => f.1 == cfg.gitkeepName) = false := by
                    revert hG
                    cases files.any fun f => f.1 == cfg.gitkeepName <;> simp
                  rw [applyMode_normal_create cfg h1 h2 h3 rd (accumulateRules g k rd)
                    files (walkDirs cfg g k rd dirs s1 i1) hE hG2]
                  rw [walkDirectory_evaluated_eq cfg g k rd dn
                    (files ++ [(cfg.gitkeepName, cfg.content)])
                    (walkDirs cfg g k rd dirs s1 i1).dirs s2 i2 he2 hi2]
                  have hE2 : ((visibleFiles cfg (accumulateRules g k rd) rd
                      (files ++ [(cfg.gitkeepName, cfg.content)])).isEmpty &&
                      !(walkDirs cfg g k rd
                        (walkDirs cfg g k rd dirs s1 i1).dirs s2 i2).anyNonEmpty) = true := by
                    rw [visibleFiles_append_marker, ja]
                    exact hE
                  have hG3 : ((files ++ [(cfg.gitkeepName, cfg.content)]).any
                      fun f => f.1 == cfg.gitkeepName) = true :=
                    any_marker_append files cfg.gitkeepName cfg.content
                  rw [applyMode_normal_keep_empty cfg h1 h2 rd (accumulateRules g k rd)
                    (files ++ [(cfg.gitkeepName, cfg.content)])
                    (walkDirs cfg g k rd (walkDirs cfg g k rd dirs s1 i1).dirs s2 i2)
                    hE2 hG3]
                  exact ⟨by rw [jd], jc, jr, rfl⟩
              · have hE0 : ((visibleFiles cfg (accumulateRules g k rd) rd files).isEmpty &&
                    !(walkDirs cfg g k rd dirs s1 i1).anyNonEmpty) = false := by
                  revert hE
                  cases (visibleFiles cfg (accumulateRules g k rd) rd files).isEmpty &&
                    !(walkDirs cfg g k rd dirs s1 i1).anyNonEmpty <;> simp
                by_cases hG : (files.any fun f => f.1 == cfg.gitkeepName) = true
                · rw [applyMode_normal_remove cfg h1 h2 h3 rd (accumulateRules g k rd)
                    files (walkDirs cfg g k rd dirs s1 i1) hE0 hG]
                  rw [walkDirectory_evaluated_eq cfg g k rd dn
                    (files.filter fun f => !(f.1 == cfg.gitkeepName))
                    (walkDirs cfg g k rd dirs s1 i1).dirs s2 i2 he2 hi2]
                  have hE2 : ((visibleFiles cfg (accumulateRules g k rd) rd
                      (files.filter fun f => !(f.1 == cfg.gitkeepName))).isEmpty &&
                      !(walkDirs cfg g k rd
                        (walkDirs cfg g k rd dirs s1 i1).dirs s2 i2).anyNonEmpty) = false := by
                    rw [visibleFiles_filter_marker, ja]
                    exact hE0
                  have hG3 : ((files.filter fun f => !(f.1 == cfg.gitkeepName)).any
                      fun f => f.1 == cfg.gitkeepName) = false :=
                    any_marker_filter files cfg.gitkeepName
                  rw [applyMode_normal_keep_nonempty cfg h1 h2 rd (accumulateRules g k rd)
                    (files.filter fun f => !(f.1 == cfg.gitkeepName))
                    (walkDirs cfg g k rd (walkDirs cfg g k rd dirs s1 i1).dirs s2 i2)
                    hE2 hG3]
                  exact ⟨by rw [jd], jc, jr, rfl⟩
                · have hG2 : (files.any fun f => f.1 == cfg.gitkeepName) = false := by
                    revert hG
                    cases files.any fun f => f.1 == cfg.gitkeepName <;> simp
                  rw [applyMode_normal_keep_nonempty cfg h1 h2 rd (accumulateRules g k rd)
                    files (walkDirs cfg g k rd dirs s1 i1) hE0 hG2]
                  rw [walkDirectory_evaluated_eq cfg g k rd dn files
                    (walkDirs cfg g k rd dirs s1 i1).dirs s2 i2 he2 hi2]
                  have hE2 : ((visibleFiles cfg (accumulateRules g k rd) rd files).isEmpty &&
                      !(walkDirs cfg g k rd
                        (walkDirs cfg g k rd dirs s1 i1).dirs s2 i2).anyNonEmpty) = false := by
                    rw [ja]
                    exact hE0
                  rw [applyMode_normal_keep_nonempty cfg h1 h2 rd (accumulateRules g k rd)
                    files (walkDirs cfg g k rd (walkDirs cfg g k rd dirs s1 i1).dirs s2 i2)
                    hE2 hG2]
                  exact ⟨by rw [jd], jc, jr, rfl⟩
  termination_by t => sizeOf t

theorem walkDirs_second_run (cfg : Config) (h1 : cfg.clean = false)
    (h2 : cfg.check = false) (h3 : cfg.dryRun = false) (g k : RulesMap) :
    ∀ (ds : List (String × FsTree)) (rd : String) (s1 : Summary) (i1 : List String)
      (s2 : Summary) (i2 : List String),
      (walkDirs cfg g k rd (walkDirs cfg g k rd ds s1 i1).dirs s2 i2).dirs =
        (walkDirs cfg g k rd ds s1 i1).dirs ∧
      (walkDirs cfg g k rd (walkDirs cfg g k rd ds s1 i1).dirs s2 i2).summary.created =
        s2.created ∧
      (walkDirs cfg g k rd (walkDirs cfg g k rd ds s1 i1).dirs s2 i2).summary.removed =
        s2.removed ∧
      (walkDirs cfg g k rd (walkDirs cfg g k rd ds s1 i1).dirs s2 i2).anyNonEmpty =
        (walkDirs cfg g k rd ds s1 i1).anyNonEmpty
  | [], rd, s1, i1, s2, i2 => by
      rw [walkDirs_nil]
      rw [walkDirs_nil]
      exact ⟨rfl, rfl, rfl, rfl⟩
  | (name, sub) :: rest, rd, s1, i1, s2, i2 => by
      rw [walkDirs_cons cfg g k rd name sub rest s1 i1]
      obtain ⟨t2, c2, r2, e2⟩ := walkDirectory_second_run cfg h1 h2 h3 g k sub
        (joinRel rd name) name s1 i1 s2 i2
      rw [walkDirs_cons cfg g k rd name
        (walkDirectory cfg g k (joinRel rd name) name sub s1 i1).tree
        (walkDirs cfg g k rd rest
          (walkDirectory cfg g k (joinRel rd name) name sub s1 i1).summary
          (walkDirectory cfg g k (joinRel rd name) name sub s1 i1).infos).dirs s2 i2]
      obtain ⟨jd, jc, jr, ja⟩ := walkDirs_second_run cfg h1 h2 h3 g k rest rd
        (walkDirectory cfg g k (joinRel rd name) name sub s1 i1).summary
        (walkDirectory cfg g k (joinRel rd name) name sub s1 i1).infos
        (walkDirectory cfg g k (joinRel rd name) name
          (walkDirectory cfg g k (joinRel rd name) name sub s1 i1).tree s2 i2).summary
        (walkDirectory cfg g k (joinRel rd name) name
          (walkDirectory cfg g k (joinRel rd name) name sub s1 i1).tree s2 i2).infos
      refine ⟨?_, ?_, ?_, ?_⟩
      · show (name, (walkDirectory cfg g k (joinRel rd name) name
          (walkDirectory cfg g k (joinRel rd name) name sub s1 i1).tree s2 i2).tree) ::
            (walkDirs cfg g k rd _ _ _).dirs = _
        rw [t2, jd]
      · show (walkDirs cfg g k rd _ _ _).summary.created = s2.created
        rw [jc, c2]
      · show (walkDirs cfg g k rd _ _ _).summary.removed = s2.removed
        rw [jr, r2]
      · show ((!(walkDirectory cfg g k (joinRel rd name) name
          (walkDirectory cfg g k (joinRel rd name) name sub s1 i1).tree s2 i2).isEmpty) ||
            (walkDirs cfg g k rd _ _ _).anyNonEmpty) = _
        rw [ja, e2]
  termination_by ds => sizeOf ds

end

/-! ## Claim C9: idempotence of normal mode, settled -/

/-- Configuration whose marker filename is the content-ignore filename,
for the C9 counterexample. -/
def c9Cfg : Config := ⟨false, "!a.log", false, false, [], ".gitignore", true⟩

/-- Tree for the C9 counterexample: the root ignores `a.log`, and `d`
contains only `a.log`. -/
def c9Tree : FsTree :=
  .node true [(".gitignore", "a.log")] [("d", .node true [("a.log", "x")] [])]

/-- C9 counterexample: with the marker filename configured as
`.gitignore`, a first normal-mode run finds `d` empty (its only file is
ignored) and writes the marker `d/.gitignore` with the configured content
`!a.log`; on the second run that marker is loaded as a rule, un-ignores
`d/a.log`, makes `d` (and hence the root) non-empty, and both markers are
removed: the second run's removed list is not empty. -/
theorem c9_counterexample :
    (runWalk c9Cfg "proj" (runWalk c9Cfg "proj" c9Tree).tree).summary.removed =
      ["d/.gitignore", ".gitignore"] := by
  decide

/-- C9 (amended): for every file tree, running a normal-mode (non-clean,
non-check, non-dry-run) walk and then a second normal-mode walk on the
resulting tree with no intervening filesystem change yields an empty
created list and an empty removed list on the second run, provided the
configured marker filename is neither the content-ignore filename
`.gitignore` nor the marker-ignore filename `.gitkeepignore` (the walk
only writes and deletes files with the marker name, so under this proviso
the second run's rule tables, emptiness computations and marker presences
all agree with the first run's outcome). -/
theorem c9_normal_mode_idempotent (cfg : Config) (rootName : String) (t : FsTree)
    (h1 : cfg.clean = false) (h2 : cfg.check = false) (h3 : cfg.dryRun = false)
    (hm1 : cfg.gitkeepName ≠ gitignoreFilename)
    (hm2 : cfg.gitkeepName ≠ gitkeepIgnoreFilename) :
    (runWalk cfg rootName (runWalk cfg rootName t).tree).summary.created = [] ∧
    (runWalk cfg rootName (runWalk cfg rootName t).tree).summary.removed = [] := by
  unfold runWalk
  dsimp only
  rw [loadAll_after_walk cfg hm1 hm2 (loadAllIgnoreRules cfg t).1 (loadAllIgnoreRules cfg t).2
    "." rootName t emptySummary []]
  obtain ⟨_, hc, hr, _⟩ := walkDirectory_second_run cfg h1 h2 h3
    (loadAllIgnoreRules cfg t).1 (loadAllIgnoreRules cfg t).2 t "." rootName
    emptySummary [] emptySummary []
  exact ⟨hc, hr⟩

/-- Default-marker configuration for the C9 witness. -/
def c9WCfg : Config := ⟨false, "", false, false, [".git"], ".gitkeep", true⟩

/-- Tree for the C9 witness: an empty subdirectory that receives a marker
on the first run. -/
def c9WTree : FsTree := .node true [("readme.md", "hi")] [("logs", .node true [] [])]

theorem c9_witness :
    (runWalk c9WCfg "proj" (runWalk c9WCfg "proj" c9WTree).tree).summary.created = [] ∧
    (runWalk c9WCfg "proj" (runWalk c9WCfg "proj" c9WTree).tree).summary.removed = [] :=
  c9_normal_mode_idempotent c9WCfg "proj" c9WTree (by decide) (by decide) (by decide)
    (by decide) (by decide)

end GitKeep
